import Mathlib

/-!
Shallow embedding of the Reversi game engine of `src/reversi.py`
(class `Reversi`).

Cells hold `Option Int` (Python `Optional[int]`), positions are pairs of
`Int` (Python `tuple[int, int]`, so directions may be negative), and the
current turn is an `Int`.  The two `while` loops of the source
(`_check_direction`'s ray walk and `apply_move`'s flip walk and skip
loop) are modelled with explicit fuel that provably exceeds the number
of iterations the source can perform on the states the theorems are
about.  Methods that raise `ValueError` are modelled with `Option` /
`Except`; method calls that temporarily or permanently mutate the
receiver (`done`, `load_game`, `simulate_moves`) are modelled as
functions that also return the receiver's final state.
-/

abbrev Cell := Option Int

abbrev Grid := List (List Cell)

abbrev Pos := Int × Int

structure Reversi where
  side : Nat
  players : Nat
  othello : Bool
  grid : Grid
  turn : Int
deriving DecidableEq

/-- `Reversi._in_bounds`: both coordinates in `[0, side)`. -/
def inBounds (side : Nat) (p : Pos) : Bool :=
  decide (0 ≤ p.1) && decide (p.1 < (side : Int)) &&
  decide (0 ≤ p.2) && decide (p.2 < (side : Int))

/-- Reading `self._grid[r][c]`; total, returning `none` outside the
lists.  Every read in the source is guarded so that the indices are
nonnegative and inside the lists. -/
def cell (g : Grid) (p : Pos) : Cell :=
  if 0 ≤ p.1 ∧ 0 ≤ p.2 then (g.getD p.1.toNat []).getD p.2.toNat none
  else none

/-- Writing `self._grid[r][c] = v`; the source only writes in bounds. -/
def set2 (g : Grid) (p : Pos) (v : Int) : Grid :=
  g.set p.1.toNat ((g.getD p.1.toNat []).set p.2.toNat (some v))

/-- The 8 compass directions, in the order the source lists them. -/
def directions : List Pos :=
  [(1, 0), (-1, 0), (0, 1), (0, -1), (1, 1), (-1, 1), (1, -1), (-1, -1)]

/-- The cell `k` steps from `p` along direction `d`. -/
def rayPos (p d : Pos) (k : Nat) : Pos :=
  (p.1 + (k : Int) * d.1, p.2 + (k : Int) * d.2)

/-- The `while` loop of `Reversi._check_direction`: from a cell known to
hold an opposing piece, keep stepping along `d`; fail on leaving the
board or meeting an empty cell, succeed on meeting `player`'s piece.
Each iteration moves one step, so `side` fuel is enough for every run
that starts in bounds. -/
def walkRay (g : Grid) (side : Nat) (player : Int) (d : Pos) :
    Nat → Pos → Option Pos
  | 0, _ => none
  | fuel + 1, p =>
    let nxt : Pos := (p.1 + d.1, p.2 + d.2)
    if !(inBounds side nxt) then none
    else if cell g nxt = none then none
    else if cell g nxt = some player then some nxt
    else walkRay g side player d fuel nxt

/-- `Reversi._check_direction`. -/
def checkDirection (g : Grid) (side : Nat) (player : Int) (pos d : Pos) :
    Option Pos :=
  let adj : Pos := (pos.1 + d.1, pos.2 + d.2)
  if !(inBounds side adj) then none
  else if cell g adj = none then none
  else if cell g adj = some player then none
  else walkRay g side player d side adj

/-- `Reversi._center_pieces`.  Nat subtraction: for `players ≤ side`
this is Python's floor division `(side - players) // 2`; configurations
with `players > side` make the source raise inside `legal_move` and are
outside the model. -/
def centerPieces (side players : Nat) : List Pos :=
  let lo := (side - players) / 2
  let hi := side - (side - players) / 2
  ((List.range (hi - lo)).map (fun i =>
    (List.range (hi - lo)).map (fun j =>
      ((((lo + i) : Nat) : Int), (((lo + j) : Nat) : Int))))).flatten

/-- Positions of one row: `for j, _ in enumerate(row)` at row index `i`. -/
def rowPositions (i : Int) (len : Nat) : List Pos :=
  (List.range len).map (fun j : Nat => (i, (j : Int)))

def gridPositionsAux : Int → Grid → List Pos
  | _, [] => []
  | i, row :: rest => rowPositions i row.length ++ gridPositionsAux (i + 1) rest

/-- Row-major enumeration of the actual grid shape:
`for i, row in enumerate(self._grid): for j, _ in enumerate(row)`. -/
def gridPositions (g : Grid) : List Pos :=
  gridPositionsAux 0 g

/-- `Reversi.legal_move` after its bounds guard (the guard is in
`legalMove`); `available_moves` only calls it at enumerated in-bounds
positions. -/
def legalMoveIB (s : Reversi) (pos : Pos) : Bool :=
  if cell s.grid pos ≠ none then false
  else
    let centerSqs := centerPieces s.side s.players
    let notFilled := (centerSqs.map (fun sq => cell s.grid sq)).contains none
    let captures := directions.any (fun d =>
      (checkDirection s.grid s.side s.turn pos d).isSome)
    if notFilled then
      if ((gridPositions s.grid).find? (fun p =>
          !(centerSqs.contains p) && (cell s.grid p).isSome)).isSome then
        captures
      else
        centerSqs.contains pos && (cell s.grid pos == none)
    else
      captures

/-- `Reversi.legal_move`: `none` models the `ValueError` on an
out-of-bounds position. -/
def legalMove (s : Reversi) (pos : Pos) : Option Bool :=
  if !(inBounds s.side pos) then none else some (legalMoveIB s pos)

/-- `Reversi.piece_at`. -/
def pieceAt (s : Reversi) (pos : Pos) : Option Cell :=
  if !(inBounds s.side pos) then none else some (cell s.grid pos)

/-- `Reversi.available_moves`: the positions of the grid (in row-major
order; the source collects them into a `set`, whose order carries no
meaning) at which `legal_move` holds for the current player. -/
def availableMoves (s : Reversi) : List Pos :=
  (gridPositions s.grid).filter (fun p => legalMoveIB s p)

/-- One iteration of the loop in `Reversi.done`: set `self._turn` to the
probed player, conjoin emptiness of its `available_moves`. -/
def doneStep (acc : Bool × Reversi) (p : Nat) : Bool × Reversi :=
  let st := { acc.2 with turn := (p : Int) }
  (acc.1 && (availableMoves st).isEmpty, st)

/-- `Reversi.done`, including the temporary mutation of `self._turn` and
its restoration: first component is the returned Bool, second the
receiver's state after the call. -/
def doneEff (s : Reversi) : Bool × Reversi :=
  let r := (List.range' 1 s.players).foldl doneStep (true, s)
  (r.1, { r.2 with turn := s.turn })

def doneB (s : Reversi) : Bool :=
  (doneEff s).1

/-- Number of pieces of label `q` on the grid (a `player_pieces` dict
entry in `Reversi.outcome`). -/
def countPieces (g : Grid) (q : Int) : Nat :=
  (g.flatten.filter (fun c => c == some q)).length

/-- The labels present on the board — the keys of the `player_pieces`
dict.  Python keeps them in first-appearance order; the claims about
`outcome` are about membership only, so `dedup`'s order is immaterial. -/
def presentLabels (g : Grid) : List Int :=
  (g.flatten.filterMap id).dedup

/-- `Reversi.outcome`. -/
def outcome (s : Reversi) : List Int :=
  if doneB s = false then []
  else
    let keys := presentLabels s.grid
    let maxPieces := (keys.map (fun q => countPieces s.grid q)).foldl max 0
    keys.filter (fun q => countPieces s.grid q == maxPieces)

/-- The turn advance of `Reversi.apply_move`:
`self._turn = (self._turn + 1) % (self._players + 1)`, then `0 → 1`. -/
def advanceTurn (players : Nat) (t : Int) : Int :=
  let t1 := (t + 1) % ((players : Int) + 1)
  if t1 = 0 then t1 + 1 else t1

def advanceState (s : Reversi) : Reversi :=
  { s with turn := advanceTurn s.players s.turn }

/-- The skip loop of `Reversi.apply_move`:
`while len(self.available_moves) == 0 and not self.done: advance`.
When the loop runs, some player has a move (`done` is false) and
advancing cycles through all `players` values, so `players + 2` fuel is
enough. -/
def skipLoop : Nat → Reversi → Reversi
  | 0, s => s
  | fuel + 1, s =>
    if (availableMoves s).isEmpty && !(doneB s) then skipLoop fuel (advanceState s)
    else s

/-- The flip walk of `Reversi.apply_move`:
`while self._grid[r][c] != self._turn: overwrite; step`.  It is only run
along directions where `_check_direction` succeeded, so it meets a cell
of the mover within `side` steps. -/
def flipWalk (player : Int) (d : Pos) : Nat → Grid → Pos → Grid
  | 0, g, _ => g
  | fuel + 1, g, p =>
    if cell g p = some player then g
    else flipWalk player d fuel (set2 g p player) (p.1 + d.1, p.2 + d.2)

/-- The placement / flipping part of `Reversi.apply_move` (everything
before the turn advance). -/
def applyPlace (s : Reversi) (pos : Pos) : Reversi :=
  if !s.othello && (centerPieces s.side s.players).contains pos then
    { s with grid := set2 s.grid pos s.turn }
  else
    let g1 := set2 s.grid pos s.turn
    let capDirs := directions.filter (fun d =>
      (checkDirection g1 s.side s.turn pos d).isSome)
    { s with grid := capDirs.foldl (fun g d =>
        flipWalk s.turn d s.side g (pos.1 + d.1, pos.2 + d.2)) g1 }

/-- `Reversi.apply_move`; `none` models the `ValueError` on an
out-of-bounds position. -/
def applyMove (s : Reversi) (pos : Pos) : Option Reversi :=
  if !(inBounds s.side pos) then none
  else
    some (skipLoop (s.players + 2)
      { applyPlace s pos with turn := advanceTurn s.players s.turn })

/-- The per-item validation of `Reversi.load_game`:
`item <= 0 or item > self._players` (on non-`None` items). -/
def cellValueBad (players : Nat) (c : Cell) : Bool :=
  match c with
  | none => false
  | some v => decide (v ≤ 0) || decide ((players : Int) < v)

/-- `Reversi.load_game`: first component is the raised `ValueError`
message if any, second the receiver's state after the call. -/
def loadGameEff (s : Reversi) (turn : Int) (g : Grid) :
    Option String × Reversi :=
  if turn ≤ 0 ∨ (s.players : Int) < turn then
    (some "Value of turn is inconsistent with the number of players", s)
  else if g.length ≠ s.grid.length then
    (some "Length of inputted grid is inconsistent with current grid size", s)
  else if g.any (fun row => row.any (cellValueBad s.players)) then
    (some "Value of turn is inconsistent with the number of players", s)
  else
    (none, { s with turn := turn, grid := g })

/-- The Othello seed of `Reversi.__init__`. -/
def othelloSeed (side : Nat) (g : Grid) : Grid :=
  let c : Int := ((side / 2 : Nat) : Int)
  let g1 := set2 g (c, c) 2
  let g2 := set2 g1 (c - 1, c) 1
  let g3 := set2 g2 (c - 1, c - 1) 2
  set2 g3 (c, c - 1) 1

def emptyGrid (side : Nat) : Grid :=
  List.replicate side (List.replicate side none)

/-- `Reversi.__init__`: `none` models the `ValueError`s, checked in the
source's order (parity, Othello player count, minimum size). -/
def reversiInit (side players : Nat) (othello : Bool) : Option Reversi :=
  let g0 := emptyGrid side
  if players % 2 ≠ g0.length % 2 then none
  else if othello ∧ players ≠ 2 then none
  else if g0.length < 3 then none
  else some { side := side, players := players, othello := othello,
              grid := if othello then othelloSeed side g0 else g0, turn := 1 }

/-- The `for move in moves` loop of `Reversi.simulate_moves`, threading
the receiver `self` (which no statement of the loop writes) alongside
the scratch engine `sim`. -/
def simGo (self : Reversi) : Reversi → List Pos → Except String Reversi × Reversi
  | sim, [] => (Except.ok sim, self)
  | sim, m :: ms =>
    if !(inBounds self.side m) then
      (Except.error "Specified position is outside the bounds of the board", self)
    else if (cell sim.grid m).isSome then
      (Except.error "There is already a piece at this location", self)
    else
      match applyMove sim m with
      | some sim1 => simGo self sim1 ms
      | none =>
        (Except.error "Specified position is outside the bounds of the board", self)

/-- `Reversi.simulate_moves`: first component is the returned scratch
engine or the raised error, second the receiver's state after the
call. -/
def simulateMovesEff (s : Reversi) (moves : List Pos) :
    Except String Reversi × Reversi :=
  match reversiInit s.side s.players s.othello with
  | none => (Except.error "Parity of side and players is incorrect", s)
  | some sim0 =>
    match loadGameEff sim0 s.turn s.grid with
    | (some msg, _) => (Except.error msg, s)
    | (none, sim1) => simGo s sim1 moves

/-- The grid is exactly `side × side`. -/
def gridShapeB (side : Nat) (g : Grid) : Bool :=
  (g.length == side) && g.all (fun row => row.length == side)

/-- Every cell is `none` or a label in `[1, players]`. -/
def validCellsB (players : Nat) (g : Grid) : Bool :=
  g.all (fun row => row.all (fun c => !(cellValueBad players c)))

/-- State invariant: square grid, valid cell labels, turn in range. -/
def invB (s : Reversi) : Bool :=
  gridShapeB s.side s.grid && validCellsB s.players s.grid &&
  decide (1 ≤ s.turn ∧ s.turn ≤ (s.players : Int)) && decide (1 ≤ s.players)

/-- Number of occupied cells, counted over the grid's positions. -/
def occupiedCount (g : Grid) : Nat :=
  ((gridPositions g).filter (fun p => (cell g p).isSome)).length

/-- The spec's directional-capture rule, written from its words: the
ray from `pos` along `d` passes through at least `minRun` cells
occupied by players other than `player` (cells `1..n` of the ray) and
then lands on a cell occupied by `player`, all within bounds.  Bounding
`n` by `side` loses nothing: a longer in-bounds ray cannot exist. -/
def capturesB (g : Grid) (side : Nat) (player : Int) (pos d : Pos)
    (minRun : Nat) : Bool :=
  (List.range (side + 1)).any (fun n =>
    decide (minRun ≤ n) &&
    inBounds side (rayPos pos d (n + 1)) &&
    (cell g (rayPos pos d (n + 1)) == some player) &&
    (List.range n).all (fun k =>
      inBounds side (rayPos pos d (k + 1)) &&
      ((cell g (rayPos pos d (k + 1))).getD player != player)))

/-- Declarative capture along a ray: `n ≥ 1` opposing cells then a cell
of `player`, all in bounds. -/
def CapturesFrom (g : Grid) (side : Nat) (player : Int) (pos d : Pos)
    (n : Nat) : Prop :=
  1 ≤ n ∧ inBounds side (rayPos pos d (n + 1)) = true ∧
  cell g (rayPos pos d (n + 1)) = some player ∧
  ∀ k, 1 ≤ k → k ≤ n → inBounds side (rayPos pos d k) = true ∧
    ∃ q, cell g (rayPos pos d k) = some q ∧ q ≠ player

/-- Concrete state: the 8×8 Othello opening. -/
def othello8 : Reversi :=
  { side := 8, players := 2, othello := true,
    grid := othelloSeed 8 (emptyGrid 8), turn := 1 }

/-- Concrete state: the 4×4 Othello opening. -/
def othello4 : Reversi :=
  { side := 4, players := 2, othello := true,
    grid := othelloSeed 4 (emptyGrid 4), turn := 1 }

/-- Concrete counterexample state for C1: 4×4, two players, the 2×2
center block fully occupied by player 1's pieces. -/
def c1state : Reversi :=
  { side := 4, players := 2, othello := false,
    grid := [[none, none, none, none],
             [none, some 1, some 1, none],
             [none, some 1, some 1, none],
             [none, none, none, none]], turn := 1 }

/-- Concrete 4×4 grid for the C3 turn-skip scenario: player 1 moving at
`(2, 0)` captures `(1, 0)`, after which player 2 has no legal move but
player 1 does. -/
def c3grid : Grid :=
  [[some 1, none, some 2, some 1],
   [some 2, none, none, none],
   [none, none, none, none],
   [none, none, none, none]]

/-- The engine state after loading `c3grid` into a 4×4 Othello game. -/
def c3state : Reversi :=
  { side := 4, players := 2, othello := true, grid := c3grid, turn := 1 }

/-- The maximum piece count over the players `1..players` (players with
no pieces count 0). -/
def maxPlayerCount (s : Reversi) : Nat :=
  ((List.range' 1 s.players).map
    (fun p : Nat => countPieces s.grid (p : Int))).foldl max 0

/-- The grid is exactly `side × side`, as a proposition. -/
def GridShape (side : Nat) (g : Grid) : Prop :=
  g.length = side ∧ ∀ row ∈ g, row.length = side

/-- Relation between the freshly-placed grid `g1` and a grid `g` midway
through the flip walks of `apply_move`: every cell is either unchanged
or has been flipped from an opposing piece to the mover's. -/
def FlipRel (side : Nat) (player : Int) (g1 g : Grid) : Prop :=
  GridShape side g ∧
  ∀ p : Pos, cell g p = cell g1 p ∨
    (cell g p = some player ∧ ∃ q, cell g1 p = some q ∧ q ≠ player)

/-- Concrete state: an empty 3×3 board with three players. -/
def c8state : Reversi :=
  { side := 3, players := 3, othello := false, grid := emptyGrid 3, turn := 1 }

/-- Concrete state: a full 2×2 board owned by a single player (the game
is over and player 1 wins). -/
def c5state : Reversi :=
  { side := 2, players := 1, othello := false,
    grid := [[some 1, some 1], [some 1, some 1]], turn := 1 }

/-- Concrete state: an empty 4×4 board with two players (Regime A with
no occupied cell anywhere). -/
def c9state : Reversi :=
  { side := 4, players := 2, othello := false, grid := emptyGrid 4, turn := 1 }

/-!  ## Basic list lemmas -/

theorem getD_set_self {α : Type} (l : List α) (i : Nat) (a d : α)
    (h : i < l.length) : (l.set i a).getD i d = a := by
  induction l generalizing i with
  | nil => simp at h
  | cons x xs ih =>
    cases i with
    | zero => simp
    | succ n =>
      simp only [List.set_cons_succ, List.getD_cons_succ]
      exact ih n (by simpa using h)

theorem getD_set_ne {α : Type} (l : List α) (i j : Nat) (a d : α)
    (h : i ≠ j) : (l.set i a).getD j d = l.getD j d := by
  induction l generalizing i j with
  | nil => simp [List.set]
  | cons x xs ih =>
    cases i with
    | zero =>
      cases j with
      | zero => exact absurd rfl h
      | succ m => simp
    | succ n =>
      cases j with
      | zero => simp
      | succ m =>
        simp only [List.set_cons_succ, List.getD_cons_succ]
        exact ih n m (by omega)

theorem set_oob {α : Type} (l : List α) (i : Nat) (a : α)
    (h : l.length ≤ i) : l.set i a = l :=
  List.set_eq_of_length_le h

/-!  ## Shape of `set2` and `cell` -/

theorem set2_length (g : Grid) (p : Pos) (v : Int) :
    (set2 g p v).length = g.length := by
  simp [set2]

theorem set2_rowlen (g : Grid) (p : Pos) (v : Int) (i : Nat) :
    ((set2 g p v).getD i []).length = (g.getD i []).length := by
  unfold set2
  by_cases hrange : p.1.toNat < g.length
  · by_cases h : p.1.toNat = i
    · subst h
      rw [getD_set_self _ _ _ _ hrange]
      simp
    · rw [getD_set_ne _ _ _ _ _ h]
  · rw [set_oob _ _ _ (by omega)]

theorem getD_mem_of_lt {α : Type} (l : List α) (i : Nat) (d : α)
    (h : i < l.length) : l.getD i d ∈ l := by
  induction l generalizing i with
  | nil => simp at h
  | cons x xs ih =>
    cases i with
    | zero => simp
    | succ n =>
      simp only [List.getD_cons_succ]
      exact List.mem_cons_of_mem _ (ih n (by simpa using h))

theorem gridShape_set2 (side : Nat) (g : Grid) (p : Pos) (v : Int)
    (h : GridShape side g) : GridShape side (set2 g p v) := by
  obtain ⟨hl, hr⟩ := h
  by_cases hrange : p.1.toNat < g.length
  · refine ⟨by rw [set2_length, hl], ?_⟩
    intro row hrow
    unfold set2 at hrow
    rcases List.mem_or_eq_of_mem_set hrow with h1 | h1
    · exact hr row h1
    · subst h1
      simp only [List.length_set]
      exact hr _ (getD_mem_of_lt g p.1.toNat [] hrange)
  · unfold set2
    rw [set_oob _ _ _ (by omega)]
    exact ⟨hl, hr⟩

theorem cell_neg (g : Grid) (p : Pos) (h : p.1 < 0 ∨ p.2 < 0) :
    cell g p = none := by
  unfold cell
  rw [if_neg]
  omega

theorem cell_nonneg (g : Grid) (p : Pos) (h1 : 0 ≤ p.1) (h2 : 0 ≤ p.2) :
    cell g p = (g.getD p.1.toNat []).getD p.2.toNat none := by
  unfold cell
  rw [if_pos ⟨h1, h2⟩]

/-- Updating one in-bounds cell changes exactly that cell. -/
theorem cell_set2 (g : Grid) (p q : Pos) (v : Int)
    (hp1 : 0 ≤ p.1) (hp2 : 0 ≤ p.2)
    (hrow : p.1.toNat < g.length)
    (hcol : p.2.toNat < (g.getD p.1.toNat []).length) :
    cell (set2 g p v) q = if q = p then some v else cell g q := by
  by_cases hq : 0 ≤ q.1 ∧ 0 ≤ q.2
  · rw [cell_nonneg _ _ hq.1 hq.2]
    unfold set2
    by_cases hr : q.1 = p.1
    · rw [hr, getD_set_self _ _ _ _ hrow]
      by_cases hc : q.2 = p.2
      · rw [hc, getD_set_self _ _ _ _ hcol]
        rw [if_pos (Prod.ext hr hc)]
      · have hcn : p.2.toNat ≠ q.2.toNat := by omega
        rw [getD_set_ne _ _ _ _ _ hcn]
        rw [if_neg (by intro he; exact hc (by rw [he]))]
        rw [cell_nonneg _ _ hq.1 hq.2, hr]
    · have hrn : p.1.toNat ≠ q.1.toNat := by omega
      rw [getD_set_ne _ _ _ _ _ hrn]
      rw [if_neg (by intro he; exact hr (by rw [he]))]
      rw [cell_nonneg _ _ hq.1 hq.2]
  · have hqn : q.1 < 0 ∨ q.2 < 0 := by omega
    rw [cell_neg _ _ hqn, cell_neg _ _ hqn]
    rw [if_neg (by intro he; subst he; omega)]

/-- For a square grid, in-bounds `cell` access hits real entries. -/
theorem gridShape_cell_lt (side : Nat) (g : Grid) (p : Pos)
    (hs : GridShape side g) (hb : inBounds side p = true) :
    0 ≤ p.1 ∧ 0 ≤ p.2 ∧ p.1.toNat < g.length ∧
      p.2.toNat < (g.getD p.1.toNat []).length := by
  simp only [inBounds, Bool.and_eq_true, decide_eq_true_eq] at hb
  obtain ⟨⟨⟨h1, h2⟩, h3⟩, h4⟩ := hb
  obtain ⟨hl, hr⟩ := hs
  have hlen : p.1.toNat < g.length := by omega
  refine ⟨h1, h3, hlen, ?_⟩
  have : g.getD p.1.toNat [] ∈ g := getD_mem_of_lt g p.1.toNat [] hlen
  rw [hr _ this]
  omega

/-!  ## `done`: characterization and frame -/

theorem doneFold_snd (L : List Nat) (b : Bool) (st : Reversi) :
    ∃ t, (L.foldl doneStep (b, st)).2 = { st with turn := t } := by
  induction L generalizing b st with
  | nil => exact ⟨st.turn, rfl⟩
  | cons p L ih =>
    obtain ⟨t, ht⟩ := ih (b && (availableMoves { st with turn := (p : Int) }).isEmpty)
      { st with turn := (p : Int) }
    exact ⟨t, ht⟩

theorem doneEff_snd (s : Reversi) : (doneEff s).2 = s := by
  obtain ⟨t, ht⟩ := doneFold_snd (List.range' 1 s.players) true s
  show ({ (List.foldl doneStep (true, s) (List.range' 1 s.players)).2 with
    turn := s.turn } : Reversi) = s
  rw [ht]

theorem doneFold_fst (s : Reversi) (L : List Nat) (b : Bool) (t : Int) :
    (L.foldl doneStep (b, { s with turn := t })).1 =
      (b && L.all (fun p => (availableMoves { s with turn := (p : Int) }).isEmpty)) := by
  induction L generalizing b t with
  | nil => simp
  | cons p L ih =>
    have step : L.foldl doneStep (doneStep (b, { s with turn := t }) p) =
        L.foldl doneStep
          ((b && (availableMoves { s with turn := (p : Int) }).isEmpty),
            { s with turn := (p : Int) }) := rfl
    simp only [List.foldl_cons, step, ih, List.all_cons]
    rw [Bool.and_assoc]

theorem doneB_eq_all (s : Reversi) :
    doneB s = (List.range' 1 s.players).all
      (fun p => (availableMoves { s with turn := (p : Int) }).isEmpty) := by
  have hs : s = { s with turn := s.turn } := rfl
  unfold doneB doneEff
  conv_lhs => rw [hs]
  rw [doneFold_fst s (List.range' 1 s.players) true s.turn]
  simp

theorem done_char (s : Reversi) :
    doneB s = true ↔ ∀ p : Nat, 1 ≤ p → p ≤ s.players →
      availableMoves { s with turn := (p : Int) } = [] := by
  rw [doneB_eq_all, List.all_eq_true]
  constructor
  · intro h p h1 h2
    have := h p (by rw [List.mem_range'_1]; omega)
    simpa using this
  · intro h p hp
    rw [List.mem_range'_1] at hp
    simpa using h p hp.1 (by omega)

theorem doneB_turn_irrel (s : Reversi) (t : Int) :
    doneB { s with turn := t } = doneB s := by
  rw [doneB_eq_all, doneB_eq_all]

/-!  ## `simulate_moves` never touches the receiver -/

theorem simGo_snd (self : Reversi) (ms : List Pos) (sim : Reversi) :
    (simGo self sim ms).2 = self := by
  induction ms generalizing sim with
  | nil => rfl
  | cons m ms ih =>
    unfold simGo
    by_cases hb : !(inBounds self.side m)
    · rw [if_pos hb]
    · rw [if_neg hb]
      by_cases ho : (cell sim.grid m).isSome
      · rw [if_pos ho]
      · rw [if_neg ho]
        cases applyMove sim m with
        | none => rfl
        | some sim1 => exact ih sim1

/-!  ## Turn advancement -/

theorem advanceTurn_mem (players : Nat) (t : Int) (hP : 1 ≤ players) :
    1 ≤ advanceTurn players t ∧ advanceTurn players t ≤ (players : Int) := by
  unfold advanceTurn
  have hne : ((players : Int) + 1) ≠ 0 := by omega
  have h0 : 0 ≤ (t + 1) % ((players : Int) + 1) := Int.emod_nonneg _ hne
  have h1 : (t + 1) % ((players : Int) + 1) < (players : Int) + 1 :=
    Int.emod_lt_of_pos _ (by omega)
  by_cases hz : (t + 1) % ((players : Int) + 1) = 0
  · rw [if_pos hz]
    omega
  · rw [if_neg hz]
    omega

theorem advanceTurn_eq (players : Nat) (t : Int)
    (h1 : 1 ≤ t) (h2 : t ≤ (players : Int)) :
    advanceTurn players t = if t = (players : Int) then 1 else t + 1 := by
  unfold advanceTurn
  by_cases he : t = (players : Int)
  · rw [if_pos he, he]
    rw [Int.emod_self]
    simp
  · rw [if_neg he]
    have : (t + 1) % ((players : Int) + 1) = t + 1 :=
      Int.emod_eq_of_lt (by omega) (by omega)
    rw [this, if_neg (by omega)]

theorem advanceTurn_mod_form (players : Nat) (a : Int) (hP : 1 ≤ players) :
    advanceTurn players (a % (players : Int) + 1) = (a + 1) % (players : Int) + 1 := by
  have hne : (players : Int) ≠ 0 := by omega
  have hu0 : 0 ≤ a % (players : Int) := Int.emod_nonneg _ hne
  have hu1 : a % (players : Int) < (players : Int) := Int.emod_lt_of_pos _ (by omega)
  rw [advanceTurn_eq players _ (by omega) (by omega)]
  have hsum : (a + 1) % (players : Int) =
      (a % (players : Int) + 1 % (players : Int)) % (players : Int) := by
    rw [← Int.add_emod]
  by_cases hone : (players : Nat) = 1
  · subst hone
    simp only [Nat.cast_one, Int.emod_one] at hu0 hu1 ⊢
    omega
  · have h1m : (1 : Int) % (players : Int) = 1 :=
      Int.emod_eq_of_lt (by omega) (by omega)
    rw [h1m] at hsum
    by_cases he : a % (players : Int) + 1 = (players : Int)
    · rw [if_pos he, hsum, he, Int.emod_self]
      omega
    · rw [if_neg he, hsum,
        @Int.emod_eq_of_lt (a % (players : Int) + 1) (players : Int)
          (by omega) (by omega)]

theorem advanceTurn_iterate (players : Nat) (t : Int) (hP : 1 ≤ players)
    (h1 : 1 ≤ t) (h2 : t ≤ (players : Int)) (k : Nat) :
    (advanceTurn players)^[k] t = (t - 1 + (k : Int)) % (players : Int) + 1 := by
  induction k with
  | zero =>
    simp only [Function.iterate_zero, id_eq, Nat.cast_zero, add_zero]
    rw [Int.emod_eq_of_lt (by omega) (by omega)]
    omega
  | succ k ih =>
    rw [Function.iterate_succ_apply', ih,
      advanceTurn_mod_form players _ hP]
    have hcast : ((k + 1 : Nat) : Int) = (k : Int) + 1 := by push_cast; ring
    rw [hcast]
    ring_nf

theorem advanceTurn_reach (players : Nat) (t q : Int) (hP : 1 ≤ players)
    (ht1 : 1 ≤ t) (ht2 : t ≤ (players : Int))
    (hq1 : 1 ≤ q) (hq2 : q ≤ (players : Int)) :
    ∃ k : Nat, k < players ∧ (advanceTurn players)^[k] t = q := by
  have hne : (players : Int) ≠ 0 := by omega
  refine ⟨((q - t) % (players : Int)).toNat, ?_, ?_⟩
  · have h0 : 0 ≤ (q - t) % (players : Int) := Int.emod_nonneg _ hne
    have h1 : (q - t) % (players : Int) < (players : Int) :=
      Int.emod_lt_of_pos _ (by omega)
    omega
  · rw [advanceTurn_iterate players t hP ht1 ht2]
    have h0 : 0 ≤ (q - t) % (players : Int) := Int.emod_nonneg _ hne
    rw [Int.toNat_of_nonneg h0]
    have : (t - 1 + (q - t) % (players : Int)) % (players : Int) =
        (t - 1 + (q - t)) % (players : Int) := by
      conv_lhs => rw [Int.add_emod, Int.emod_emod_of_dvd _ dvd_rfl]
      rw [← Int.add_emod]
    rw [this]
    have he : t - 1 + (q - t) = q - 1 := by ring
    rw [he, Int.emod_eq_of_lt (by omega) (by omega)]
    omega

/-!  ## The skip loop -/

theorem skipLoop_fields (fuel : Nat) (s : Reversi) :
    ∃ t, skipLoop fuel s = { s with turn := t } := by
  induction fuel generalizing s with
  | zero => exact ⟨s.turn, rfl⟩
  | succ n ih =>
    unfold skipLoop
    by_cases hc : ((availableMoves s).isEmpty && !(doneB s)) = true
    · rw [if_pos hc]
      obtain ⟨t, ht⟩ := ih (advanceState s)
      exact ⟨t, ht⟩
    · rw [if_neg hc]
      exact ⟨s.turn, rfl⟩

theorem skipLoop_stop (fuel : Nat) (s : Reversi)
    (h : availableMoves s ≠ []) : skipLoop fuel s = s := by
  cases fuel with
  | zero => rfl
  | succ n =>
    unfold skipLoop
    rw [if_neg]
    simp only [Bool.and_eq_true, List.isEmpty_iff, Bool.not_eq_true']
    intro hc
    exact h hc.1

theorem doneB_skipLoop (fuel : Nat) (s : Reversi) :
    doneB (skipLoop fuel s) = doneB s := by
  obtain ⟨t, ht⟩ := skipLoop_fields fuel s
  rw [ht, doneB_turn_irrel]

theorem skipLoop_reach (fuel : Nat) (s : Reversi) (hP : 1 ≤ s.players)
    (hdone : doneB s = false)
    (ht1 : 1 ≤ s.turn) (ht2 : s.turn ≤ (s.players : Int))
    (hex : ∃ k : Nat, k < fuel ∧
      availableMoves { s with turn := (advanceTurn s.players)^[k] s.turn } ≠ []) :
    availableMoves (skipLoop fuel s) ≠ [] := by
  induction fuel generalizing s with
  | zero =>
    obtain ⟨k, hk, _⟩ := hex
    omega
  | succ n ih =>
    by_cases hmv : availableMoves s = []
    · have hcond : ((availableMoves s).isEmpty && !(doneB s)) = true := by
        simp [hmv, hdone]
      show availableMoves
        (if ((availableMoves s).isEmpty && !(doneB s)) = true then
          skipLoop n (advanceState s) else s) ≠ []
      rw [if_pos hcond]
      obtain ⟨k, hk, hkm⟩ := hex
      have hk0 : k ≠ 0 := by
        intro h0
        subst h0
        simp only [Function.iterate_zero, id_eq] at hkm
        exact hkm hmv
      have hadv := advanceTurn_mem s.players s.turn hP
      refine ih (advanceState s) hP ?_ hadv.1 hadv.2 ⟨k - 1, by omega, ?_⟩
      · rw [show advanceState s = { s with turn := advanceTurn s.players s.turn } from rfl,
          doneB_turn_irrel]
        exact hdone
      · show availableMoves
          { s with turn :=
            (advanceTurn s.players)^[k - 1] (advanceTurn s.players s.turn) } ≠ []
        rw [← Function.iterate_succ_apply, show (k - 1).succ = k from by omega]
        exact hkm
    · rw [skipLoop_stop _ _ hmv]
      exact hmv

/-!  ## Claims C2, C4 -/

/-- Claim C2: for every game state, `done` returns true iff, for every
player from 1 to `players`, that player's `available_moves` (computed as
if it were that player's turn) is empty; and evaluating `done` leaves
the observable turn and grid of the engine unchanged. -/
theorem claimC2 (s : Reversi) :
    ((doneEff s).1 = true ↔ ∀ p : Nat, 1 ≤ p → p ≤ s.players →
      availableMoves { s with turn := (p : Int) } = []) ∧
    (doneEff s).2 = s :=
  ⟨done_char s, doneEff_snd s⟩

theorem claimC2_witness :
    ((doneEff othello8).1 = true ↔ ∀ p : Nat, 1 ≤ p → p ≤ othello8.players →
      availableMoves { othello8 with turn := (p : Int) } = []) ∧
    (doneEff othello8).2 = othello8 :=
  claimC2 othello8

/-- Claim C4: `simulate_moves` never mutates the receiver — its grid
and turn are equal before and after the call, on success and on
failure alike. -/
theorem claimC4 (s : Reversi) (moves : List Pos) :
    (simulateMovesEff s moves).2.grid = s.grid ∧
    (simulateMovesEff s moves).2.turn = s.turn := by
  have h : (simulateMovesEff s moves).2 = s := by
    unfold simulateMovesEff
    rcases reversiInit s.side s.players s.othello with _ | sim0
    · rfl
    · show (match loadGameEff sim0 s.turn s.grid with
        | (some msg, _) => ((Except.error msg : Except String Reversi), s)
        | (none, sim1) => simGo s sim1 moves).2 = s
      rcases loadGameEff sim0 s.turn s.grid with ⟨_ | msg, sim1⟩
      · exact simGo_snd s moves sim1
      · rfl
  rw [h]
  exact ⟨rfl, rfl⟩

theorem claimC4_witness :
    (simulateMovesEff othello4 [((2 : Int), (0 : Int)), (99, 99)]).2.grid =
      othello4.grid ∧
    (simulateMovesEff othello4 [((2 : Int), (0 : Int)), (99, 99)]).2.turn =
      othello4.turn :=
  claimC4 othello4 [((2 : Int), (0 : Int)), (99, 99)]

/-!  ## Claim C7 -/

/-- Claim C7: constructing an engine with `side = 8`, `players = 2`,
`othello = true` succeeds and yields the documented seed: player 2 at
`(3,3)` and `(4,4)`, player 1 at `(3,4)` and `(4,3)`, every other cell
empty, `turn = 1`, and `available_moves` exactly
`{(2,3), (3,2), (4,5), (5,4)}` (listed here in the model's row-major
order; the source returns them as a set). -/
theorem claimC7 :
    reversiInit 8 2 true = some othello8 ∧
    pieceAt othello8 (3, 3) = some (some 2) ∧
    pieceAt othello8 (3, 4) = some (some 1) ∧
    pieceAt othello8 (4, 3) = some (some 1) ∧
    pieceAt othello8 (4, 4) = some (some 2) ∧
    othello8.turn = 1 ∧
    availableMoves othello8 = [(2, 3), (3, 2), (4, 5), (5, 4)] ∧
    ∀ p ∈ gridPositions othello8.grid,
      p ∉ ([(3, 3), (3, 4), (4, 3), (4, 4)] : List Pos) →
      cell othello8.grid p = none := by
  decide

/-!  ## Claim C1: counterexample to the "zero or more" reading -/

/-- Claim C1 is false as stated: in `c1state` the center block is fully
occupied (Regime B) and `(0,1)` is in bounds and empty; the ray going
down from `(0,1)` lands immediately (after zero opposing cells) on a
cell of the moving player, so the claim's "zero or more" capture
predicate holds, yet `legal_move` returns false — the source requires
at least one opposing cell before the mover's piece. -/
theorem claimC1_cex :
    ((centerPieces c1state.side c1state.players).map
        (fun sq => cell c1state.grid sq)).contains none = false ∧
    inBounds c1state.side (0, 1) = true ∧
    cell c1state.grid (0, 1) = none ∧
    directions.any
      (fun d => capturesB c1state.grid c1state.side c1state.turn (0, 1) d 0) = true ∧
    legalMoveIB c1state (0, 1) = false := by
  decide

/-!  ## Rays: the fuel walk matches the declarative capture predicate -/

theorem rayPos_zero (pos d : Pos) : rayPos pos d 0 = pos := by
  simp [rayPos]

theorem rayPos_succ (pos d : Pos) (k : Nat) :
    rayPos pos d (k + 1) = ((rayPos pos d k).1 + d.1, (rayPos pos d k).2 + d.2) := by
  unfold rayPos
  push_cast
  simp only [Prod.mk.injEq]
  constructor <;> ring

theorem rayPos_one (pos d : Pos) : rayPos pos d 1 = (pos.1 + d.1, pos.2 + d.2) := by
  rw [show (1 : Nat) = 0 + 1 from rfl, rayPos_succ, rayPos_zero]

theorem walkRay_succ_eq (g : Grid) (side : Nat) (player : Int) (d : Pos)
    (n : Nat) (p : Pos) :
    walkRay g side player d (n + 1) p =
      (if !(inBounds side (p.1 + d.1, p.2 + d.2)) then none
       else if cell g (p.1 + d.1, p.2 + d.2) = none then none
       else if cell g (p.1 + d.1, p.2 + d.2) = some player then
         some (p.1 + d.1, p.2 + d.2)
       else walkRay g side player d n (p.1 + d.1, p.2 + d.2)) := rfl

theorem walkRay_sound (g : Grid) (side : Nat) (player : Int) (pos d : Pos) :
    ∀ (fuel : Nat) (j : Nat) (e : Pos), 1 ≤ j →
    walkRay g side player d fuel (rayPos pos d j) = some e →
    ∃ m : Nat, j < m ∧ e = rayPos pos d m ∧
      inBounds side (rayPos pos d m) = true ∧
      cell g (rayPos pos d m) = some player ∧
      ∀ k, j < k → k < m →
        inBounds side (rayPos pos d k) = true ∧
        ∃ q, cell g (rayPos pos d k) = some q ∧ q ≠ player := by
  intro fuel
  induction fuel with
  | zero =>
    intro j e hj h
    simp [walkRay] at h
  | succ n ih =>
    intro j e hj h
    rw [walkRay_succ_eq, ← rayPos_succ] at h
    by_cases hb : inBounds side (rayPos pos d (j + 1)) = true
    · rw [hb] at h
      simp only [Bool.not_true, Bool.false_eq_true, if_false] at h
      by_cases hnone : cell g (rayPos pos d (j + 1)) = none
      · rw [if_pos hnone] at h
        exact absurd h (by simp)
      · rw [if_neg hnone] at h
        by_cases hpl : cell g (rayPos pos d (j + 1)) = some player
        · rw [if_pos hpl] at h
          refine ⟨j + 1, by omega, by
            injection h with h1
            exact h1.symm, hb, hpl, ?_⟩
          intro k hk1 hk2
          omega
        · rw [if_neg hpl] at h
          obtain ⟨m, hm1, hm2, hm3, hm4, hm5⟩ := ih (j + 1) e (by omega) h
          refine ⟨m, by omega, hm2, hm3, hm4, ?_⟩
          intro k hk1 hk2
          by_cases hkj : k = j + 1
          · subst hkj
            obtain ⟨q, hq⟩ := Option.ne_none_iff_exists'.mp hnone
            exact ⟨hb, q, hq, by intro he; rw [he] at hq; exact hpl hq⟩
          · exact hm5 k (by omega) hk2
    · rw [Bool.not_eq_true] at hb
      rw [hb] at h
      exact absurd h (by simp)

theorem walkRay_complete (g : Grid) (side : Nat) (player : Int) (pos d : Pos) :
    ∀ (fuel : Nat) (j m : Nat), 1 ≤ j → j < m → m - j ≤ fuel →
    inBounds side (rayPos pos d m) = true →
    cell g (rayPos pos d m) = some player →
    (∀ k, j < k → k < m →
      inBounds side (rayPos pos d k) = true ∧
      ∃ q, cell g (rayPos pos d k) = some q ∧ q ≠ player) →
    walkRay g side player d fuel (rayPos pos d j) = some (rayPos pos d m) := by
  intro fuel
  induction fuel with
  | zero =>
    intro j m hj hjm hfuel _ _ _
    omega
  | succ n ih =>
    intro j m hj hjm hfuel hbm hcm hmid
    rw [walkRay_succ_eq, ← rayPos_succ]
    by_cases hjm1 : j + 1 = m
    · rw [hjm1, hbm]
      simp only [Bool.not_true, Bool.false_eq_true, if_false]
      rw [if_neg (by rw [hcm]; intro hx; cases hx), if_pos hcm]
    · obtain ⟨hbk, q, hck, hqk⟩ := hmid (j + 1) (by omega) (by omega)
      rw [hbk]
      simp only [Bool.not_true, Bool.false_eq_true, if_false]
      rw [if_neg (by rw [hck]; intro hx; cases hx),
        if_neg (by rw [hck]; intro hx; injection hx with hx1; exact hqk hx1)]
      refine ih (j + 1) m (by omega) (by omega) (by omega) hbm hcm ?_
      intro k hk1 hk2
      exact hmid k (by omega) hk2

theorem checkDirection_eq (g : Grid) (side : Nat) (player : Int) (pos d : Pos) :
    checkDirection g side player pos d =
      (if !(inBounds side (rayPos pos d 1)) then none
       else if cell g (rayPos pos d 1) = none then none
       else if cell g (rayPos pos d 1) = some player then none
       else walkRay g side player d side (rayPos pos d 1)) := by
  rw [rayPos_one]
  rfl

theorem checkDirection_sound (g : Grid) (side : Nat) (player : Int)
    (pos d : Pos) (e : Pos)
    (h : checkDirection g side player pos d = some e) :
    ∃ n : Nat, CapturesFrom g side player pos d n ∧ e = rayPos pos d (n + 1) := by
  rw [checkDirection_eq] at h
  by_cases hb : inBounds side (rayPos pos d 1) = true
  · rw [hb] at h
    simp only [Bool.not_true, Bool.false_eq_true, if_false] at h
    by_cases hnone : cell g (rayPos pos d 1) = none
    · rw [if_pos hnone] at h
      exact absurd h (by simp)
    · rw [if_neg hnone] at h
      by_cases hpl : cell g (rayPos pos d 1) = some player
      · rw [if_pos hpl] at h
        exact absurd h (by simp)
      · rw [if_neg hpl] at h
        obtain ⟨m, hm1, hm2, hm3, hm4, hm5⟩ :=
          walkRay_sound g side player pos d side 1 e (by omega) h
        refine ⟨m - 1, ⟨by omega, ?_, ?_, ?_⟩, ?_⟩
        · rw [show m - 1 + 1 = m from by omega]
          exact hm3
        · rw [show m - 1 + 1 = m from by omega]
          exact hm4
        · intro k hk1 hk2
          by_cases hk : k = 1
          · subst hk
            obtain ⟨q, hq⟩ := Option.ne_none_iff_exists'.mp hnone
            exact ⟨hb, q, hq, by intro he'; rw [he'] at hq; exact hpl hq⟩
          · exact hm5 k (by omega) (by omega)
        · rw [show m - 1 + 1 = m from by omega]
          exact hm2
  · rw [Bool.not_eq_true] at hb
    rw [hb] at h
    exact absurd h (by simp)

/-- Geometry: a capture ray's endpoint in bounds forces `n + 2 ≤ side`
for every one of the 8 directions. -/
theorem ray_bound (side : Nat) (pos d : Pos) (n : Nat)
    (hd : d ∈ directions) (hpos : inBounds side pos = true)
    (hend : inBounds side (rayPos pos d (n + 1)) = true) :
    n + 2 ≤ side := by
  simp only [inBounds, Bool.and_eq_true, decide_eq_true_eq] at hpos hend
  obtain ⟨⟨⟨a1, a2⟩, a3⟩, a4⟩ := hpos
  obtain ⟨⟨⟨b1, b2⟩, b3⟩, b4⟩ := hend
  fin_cases hd <;>
    simp only [rayPos, mul_one, mul_zero, mul_neg, add_zero] at b1 b2 b3 b4 <;>
    omega

theorem checkDirection_complete (g : Grid) (side : Nat) (player : Int)
    (pos d : Pos) (n : Nat)
    (hd : d ∈ directions) (hpos : inBounds side pos = true)
    (h : CapturesFrom g side player pos d n) :
    checkDirection g side player pos d = some (rayPos pos d (n + 1)) := by
  obtain ⟨hn, hbe, hce, hmid⟩ := h
  obtain ⟨hb1, q, hc1, hq1⟩ := hmid 1 le_rfl hn
  have hside : n + 2 ≤ side := ray_bound side pos d n hd hpos hbe
  rw [checkDirection_eq, hb1]
  simp only [Bool.not_true, Bool.false_eq_true, if_false]
  rw [if_neg (by rw [hc1]; intro hx; cases hx),
    if_neg (by rw [hc1]; intro hx; injection hx with hx1; exact hq1 hx1)]
  refine walkRay_complete g side player pos d side 1 (n + 1)
    le_rfl (by omega) (by omega) hbe hce ?_
  intro k hk1 hk2
  exact hmid k (by omega) (by omega)

theorem checkDirection_isSome_iff (g : Grid) (side : Nat) (player : Int)
    (pos d : Pos) (hd : d ∈ directions) (hpos : inBounds side pos = true) :
    (checkDirection g side player pos d).isSome = true ↔
      ∃ n : Nat, CapturesFrom g side player pos d n := by
  constructor
  · intro h
    obtain ⟨e, he⟩ := Option.isSome_iff_exists.mp h
    obtain ⟨n, hn, _⟩ := checkDirection_sound g side player pos d e he
    exact ⟨n, hn⟩
  · intro ⟨n, hn⟩
    rw [checkDirection_complete g side player pos d n hd hpos hn]
    rfl

theorem bool_eq_of_iff {a b : Bool} (h : a = true ↔ b = true) : a = b := by
  cases a <;> cases b <;> simp_all

theorem capturesB_one_iff (g : Grid) (side : Nat) (player : Int)
    (pos d : Pos) (hd : d ∈ directions) (hpos : inBounds side pos = true) :
    capturesB g side player pos d 1 = true ↔
      ∃ n : Nat, CapturesFrom g side player pos d n := by
  unfold capturesB
  rw [List.any_eq_true]
  constructor
  · rintro ⟨n, hmem, hbody⟩
    simp only [Bool.and_eq_true, decide_eq_true_eq, beq_iff_eq,
      List.all_eq_true] at hbody
    obtain ⟨⟨⟨h1, h2⟩, h3⟩, h4⟩ := hbody
    refine ⟨n, h1, h2, h3, ?_⟩
    intro k hk1 hk2
    have hk := h4 (k - 1) (by rw [List.mem_range]; omega)
    rw [show k - 1 + 1 = k from by omega] at hk
    refine ⟨hk.1, ?_⟩
    have h5 := hk.2
    cases hc : cell g (rayPos pos d k) with
    | none =>
      rw [hc] at h5
      simp only [Option.getD_none, bne_self_eq_false] at h5
      exact absurd h5 (by simp)
    | some q =>
      rw [hc] at h5
      simp only [Option.getD_some, bne_iff_ne, ne_eq] at h5
      exact ⟨q, rfl, h5⟩
  · rintro ⟨n, hn1, hn2, hn3, hn4⟩
    have hside : n + 2 ≤ side := ray_bound side pos d n hd hpos hn2
    refine ⟨n, by rw [List.mem_range]; omega, ?_⟩
    simp only [Bool.and_eq_true, decide_eq_true_eq, beq_iff_eq,
      List.all_eq_true]
    refine ⟨⟨⟨hn1, hn2⟩, hn3⟩, ?_⟩
    intro k hk
    rw [List.mem_range] at hk
    obtain ⟨hbk, q, hck, hqk⟩ := hn4 (k + 1) (by omega) (by omega)
    rw [hbk, hck]
    simp only [Option.getD_some, Bool.true_and, bne_iff_ne, ne_eq]
    exact ⟨trivial, hqk⟩

/-!  ## Claim C1 (amended) and Claim C9 -/

/-- Claim C1, amended: in Regime B (center block fully occupied), for an
in-bounds empty position, `legal_move` is true iff one of the 8 rays
captures, where a ray captures iff it passes through **one** or more
cells occupied by other players and then lands on a cell of the moving
player, all within bounds.  (The claim's original "zero or more" fails:
see the counterexample.) -/
theorem claimC1_amended (s : Reversi) (pos : Pos)
    (hB : ((centerPieces s.side s.players).map
      (fun sq => cell s.grid sq)).contains none = false)
    (hpos : inBounds s.side pos = true)
    (hempty : cell s.grid pos = none) :
    legalMoveIB s pos =
      directions.any (fun d => capturesB s.grid s.side s.turn pos d 1) := by
  unfold legalMoveIB
  rw [if_neg (show ¬(cell s.grid pos ≠ none) from fun hne => hne hempty)]
  dsimp only
  rw [hB]
  simp only [Bool.false_eq_true, if_false]
  apply bool_eq_of_iff
  simp only [List.any_eq_true]
  constructor
  · rintro ⟨d, hd, h⟩
    refine ⟨d, hd, ?_⟩
    rw [capturesB_one_iff s.grid s.side s.turn pos d hd hpos]
    rw [← checkDirection_isSome_iff s.grid s.side s.turn pos d hd hpos]
    exact h
  · rintro ⟨d, hd, h⟩
    refine ⟨d, hd, ?_⟩
    rw [capturesB_one_iff s.grid s.side s.turn pos d hd hpos] at h
    rw [← checkDirection_isSome_iff s.grid s.side s.turn pos d hd hpos] at h
    exact h

theorem claimC1_witness :
    legalMoveIB othello8 (2, 3) =
      directions.any (fun d => capturesB othello8.grid othello8.side
        othello8.turn (2, 3) d 1) :=
  claimC1_amended othello8 (2, 3) (by decide) (by decide) (by decide)

/-- Claim C9: in a state where the center block is not fully occupied
and no cell outside the center block is occupied, an in-bounds position
is legal iff it lies in the center block and is empty. -/
theorem claimC9 (s : Reversi) (pos : Pos)
    (hNF : ((centerPieces s.side s.players).map
      (fun sq => cell s.grid sq)).contains none = true)
    (hout : ∀ p ∈ gridPositions s.grid,
      (centerPieces s.side s.players).contains p = false → cell s.grid p = none)
    (hpos : inBounds s.side pos = true) :
    legalMoveIB s pos =
      ((centerPieces s.side s.players).contains pos &&
        (cell s.grid pos == none)) := by
  unfold legalMoveIB
  by_cases hempty : cell s.grid pos = none
  · rw [if_neg (show ¬(cell s.grid pos ≠ none) from fun hne => hne hempty)]
    dsimp only
    rw [hNF]
    simp only [if_true]
    have hfind : (gridPositions s.grid).find? (fun p =>
        !((centerPieces s.side s.players).contains p) &&
          (cell s.grid p).isSome) = none := by
      rw [List.find?_eq_none]
      intro p hp
      by_cases hc : (centerPieces s.side s.players).contains p = true
      · rw [hc]
        simp
      · rw [Bool.not_eq_true] at hc
        have hnone := hout p hp hc
        rw [hc, hnone]
        simp
    rw [hfind]
    simp only [Option.isSome_none, Bool.false_eq_true, if_false]
  · rw [if_pos hempty]
    have : (cell s.grid pos == none) = false := by
      rw [beq_eq_false_iff_ne]
      exact hempty
    rw [this, Bool.and_false]

theorem claimC9_witness :
    legalMoveIB c9state (1, 1) =
      ((centerPieces c9state.side c9state.players).contains (1, 1) &&
        (cell c9state.grid (1, 1) == none)) :=
  claimC9 c9state (1, 1) (by decide) (by decide) (by decide)

/-!  ## Claim C6 -/

theorem cellValueBad_iff (players : Nat) (c : Cell) :
    cellValueBad players c = true ↔
      ∃ v, c = some v ∧ (v < 1 ∨ (players : Int) < v) := by
  cases c with
  | none => simp [cellValueBad]
  | some v =>
    simp only [cellValueBad, Bool.or_eq_true, decide_eq_true_eq,
      Option.some.injEq]
    constructor
    · intro h
      exact ⟨v, rfl, by omega⟩
    · rintro ⟨w, hw, h⟩
      subst hw
      omega

/-- Claim C6: `load_game` validates in order — turn range, then row
count, then cell values — before any mutation; each failure leaves the
engine's prior grid and turn fully intact, and on success grid and turn
are both replaced. -/
theorem claimC6 (s : Reversi) (t : Int) (g : Grid)
    (hlen : s.grid.length = s.side) :
    ((t ≤ 0 ∨ (s.players : Int) < t) →
      loadGameEff s t g =
        (some "Value of turn is inconsistent with the number of players", s)) ∧
    (1 ≤ t → t ≤ (s.players : Int) → g.length ≠ s.side →
      loadGameEff s t g =
        (some "Length of inputted grid is inconsistent with current grid size", s)) ∧
    (1 ≤ t → t ≤ (s.players : Int) → g.length = s.side →
      (∃ row ∈ g, ∃ c ∈ row, ∃ v, c = some v ∧ (v < 1 ∨ (s.players : Int) < v)) →
      loadGameEff s t g =
        (some "Value of turn is inconsistent with the number of players", s)) ∧
    (1 ≤ t → t ≤ (s.players : Int) → g.length = s.side →
      (∀ row ∈ g, ∀ c ∈ row, ∀ v, c = some v → 1 ≤ v ∧ v ≤ (s.players : Int)) →
      loadGameEff s t g = (none, { s with turn := t, grid := g })) := by
  unfold loadGameEff
  refine ⟨?_, ?_, ?_, ?_⟩
  · intro h
    rw [if_pos (by omega)]
  · intro h1 h2 h3
    rw [if_neg (by omega), if_pos (by omega)]
  · intro h1 h2 h3 h4
    rw [if_neg (by omega), if_neg (by omega), if_pos]
    rw [List.any_eq_true]
    obtain ⟨row, hrow, c, hc, v, hv, hvr⟩ := h4
    refine ⟨row, hrow, ?_⟩
    rw [List.any_eq_true]
    exact ⟨c, hc, (cellValueBad_iff s.players c).mpr ⟨v, hv, hvr⟩⟩
  · intro h1 h2 h3 h4
    rw [if_neg (by omega), if_neg (by omega), if_neg]
    intro hany
    rw [List.any_eq_true] at hany
    obtain ⟨row, hrow, hrowany⟩ := hany
    rw [List.any_eq_true] at hrowany
    obtain ⟨c, hc, hbad⟩ := hrowany
    obtain ⟨v, hv, hvr⟩ := (cellValueBad_iff s.players c).mp hbad
    have := h4 row hrow c hc v hv
    omega

theorem claimC6_witness :
    loadGameEff othello4 2 (emptyGrid 4) =
      (none, { othello4 with turn := 2, grid := emptyGrid 4 }) :=
  (claimC6 othello4 2 (emptyGrid 4) (by decide)).2.2.2
    (by decide) (by decide) (by decide) (by decide)

/-!  ## Claim C3 -/

theorem applyMove_some (s : Reversi) (pos : Pos) (s' : Reversi)
    (h : applyMove s pos = some s') :
    inBounds s.side pos = true ∧
    s' = skipLoop (s.players + 2)
      { applyPlace s pos with turn := advanceTurn s.players s.turn } := by
  unfold applyMove at h
  by_cases hb : inBounds s.side pos = true
  · rw [hb] at h
    simp only [Bool.not_true, Bool.false_eq_true, if_false,
      Option.some.injEq] at h
    exact ⟨hb, h.symm⟩
  · rw [Bool.not_eq_true] at hb
    rw [hb] at h
    simp at h

theorem applyPlace_eq (s : Reversi) (pos : Pos) :
    ∃ g', applyPlace s pos = { s with grid := g' } := by
  unfold applyPlace
  by_cases hc : (!s.othello && (centerPieces s.side s.players).contains pos) = true
  · rw [if_pos hc]
    exact ⟨_, rfl⟩
  · rw [if_neg hc]
    exact ⟨_, rfl⟩

/-- Claim C3: after `apply_move` on an in-bounds position, the turn is
advanced by one with 1-based wrap-around (conjunct 1), the skip loop
stops immediately when the next player has a move (conjunct 2), it
never stops on a moveless player while the game is not done
(conjunct 3); in particular, in the loaded 4×4 Othello position
`c3grid`, player 1's move at `(2,0)` leaves player 2 moveless and the
turn wraps back to 1 (conjunct 4). -/
theorem claimC3 :
    (∀ (players : Nat) (t : Int), 1 ≤ t → t ≤ (players : Int) →
      advanceTurn players t = if t = (players : Int) then 1 else t + 1) ∧
    (∀ (s : Reversi) (pos : Pos) (s' : Reversi),
      applyMove s pos = some s' →
      availableMoves { s' with turn := advanceTurn s.players s.turn } ≠ [] →
      s'.turn = advanceTurn s.players s.turn) ∧
    (∀ (s : Reversi) (pos : Pos) (s' : Reversi), 1 ≤ s.players →
      applyMove s pos = some s' → doneB s' = false →
      availableMoves s' ≠ []) ∧
    ((loadGameEff othello4 1 c3grid).1 = none ∧
      (loadGameEff othello4 1 c3grid).2 = c3state ∧
      legalMoveIB c3state (2, 0) = true ∧
      (applyMove c3state (2, 0)).map Reversi.turn = some 1) := by
  refine ⟨?_, ?_, ?_, ?_⟩
  · intro players t h1 h2
    exact advanceTurn_eq players t h1 h2
  · intro s pos s' h hmv
    obtain ⟨hb, hs'⟩ := applyMove_some s pos s' h
    obtain ⟨t, ht⟩ := skipLoop_fields (s.players + 2)
      { applyPlace s pos with turn := advanceTurn s.players s.turn }
    have hmv' : availableMoves
        { applyPlace s pos with turn := advanceTurn s.players s.turn } ≠ [] := by
      have : ({ s' with turn := advanceTurn s.players s.turn } : Reversi) =
          { applyPlace s pos with turn := advanceTurn s.players s.turn } := by
        rw [hs', ht]
      rw [this] at hmv
      exact hmv
    rw [hs', skipLoop_stop _ _ hmv']
  · intro s pos s' hP h hdone
    obtain ⟨hb, hs0⟩ := applyMove_some s pos s' h
    obtain ⟨gP, hgP⟩ := applyPlace_eq s pos
    rw [hgP] at hs0
    have hs' : s' = skipLoop (s.players + 2)
        { s with grid := gP, turn := advanceTurn s.players s.turn } := hs0
    have hadv := advanceTurn_mem s.players s.turn hP
    have hdone' : doneB
        { s with grid := gP, turn := advanceTurn s.players s.turn } = false := by
      rw [hs', doneB_skipLoop] at hdone
      exact hdone
    have hnall : ¬ ∀ p : Nat, 1 ≤ p → p ≤ s.players →
        availableMoves { s with grid := gP, turn := (p : Int) } = [] := by
      intro hall
      have hT := (done_char
        { s with grid := gP, turn := advanceTurn s.players s.turn }).mpr
        (fun p h1 h2 => hall p h1 h2)
      simp [hdone'] at hT
    push_neg at hnall
    obtain ⟨p, hp1, hp2, hpm⟩ := hnall
    obtain ⟨k, hk, hiter⟩ := advanceTurn_reach s.players
      (advanceTurn s.players s.turn) (p : Int) hP hadv.1 hadv.2
      (by exact_mod_cast hp1) (by exact_mod_cast hp2)
    rw [hs']
    refine skipLoop_reach (s.players + 2)
      { s with grid := gP, turn := advanceTurn s.players s.turn }
      hP hdone' hadv.1 hadv.2 ⟨k, by omega, ?_⟩
    show availableMoves
      (⟨s.side, s.players, s.othello, gP,
        (advanceTurn s.players)^[k] (advanceTurn s.players s.turn)⟩ : Reversi) ≠ []
    rw [hiter]
    exact hpm
  · exact ⟨by decide, by decide, by decide, by decide⟩

theorem claimC3_witness :
    advanceTurn 2 2 = 1 ∧
    (applyMove c3state (2, 0)).map Reversi.turn = some 1 := by
  constructor
  · have h := claimC3.1 2 (2 : Int) (by omega) (by omega)
    rw [h]
    simp
  · exact claimC3.2.2.2.2.2.2

/-!  ## Folded maximum -/

theorem foldl_max_init_le (L : List Nat) (a : Nat) : a ≤ L.foldl max a := by
  induction L generalizing a with
  | nil => exact le_refl a
  | cons x xs ih =>
    calc a ≤ max a x := le_max_left a x
    _ ≤ xs.foldl max (max a x) := ih (max a x)

theorem foldl_max_le_of_mem (L : List Nat) (a x : Nat) :
    x ∈ L → x ≤ L.foldl max a := by
  induction L generalizing a with
  | nil =>
    intro h
    simp at h
  | cons y ys ih =>
    intro h
    rcases List.mem_cons.mp h with h1 | h1
    · subst h1
      calc x ≤ max a x := le_max_right a x
      _ ≤ ys.foldl max (max a x) := foldl_max_init_le ys (max a x)
    · exact ih (max a y) h1

theorem foldl_max_cases (L : List Nat) (a : Nat) :
    L.foldl max a = a ∨ L.foldl max a ∈ L := by
  induction L generalizing a with
  | nil => exact Or.inl rfl
  | cons x xs ih =>
    rcases ih (max a x) with h | h
    · rcases Nat.le_total a x with hax | hax
      · right
        rw [List.foldl_cons, h, max_eq_right hax]
        exact List.mem_cons_self x xs
      · left
        rw [List.foldl_cons, h, max_eq_left hax]
    · right
      exact List.mem_cons_of_mem x h

theorem foldl_max_le (L : List Nat) (a m : Nat) (ha : a ≤ m)
    (h : ∀ x ∈ L, x ≤ m) : L.foldl max a ≤ m := by
  induction L generalizing a with
  | nil => exact ha
  | cons x xs ih =>
    rw [List.foldl_cons]
    exact ih (max a x) (max_le ha (h x (List.mem_cons_self x xs)))
      (fun y hy => h y (List.mem_cons_of_mem x hy))

/-!  ## Labels, counts, grid positions -/

theorem mem_presentLabels (g : Grid) (q : Int) :
    q ∈ presentLabels g ↔ some q ∈ g.flatten := by
  unfold presentLabels
  rw [List.mem_dedup, List.mem_filterMap]
  constructor
  · rintro ⟨c, hc, he⟩
    rw [show c = some q from he] at hc
    exact hc
  · intro h
    exact ⟨some q, h, rfl⟩

theorem countPieces_pos (g : Grid) (q : Int) :
    1 ≤ countPieces g q ↔ some q ∈ g.flatten := by
  unfold countPieces
  rw [show (1 ≤ (g.flatten.filter (fun c => c == some q)).length) ↔
    (g.flatten.filter (fun c => c == some q)) ≠ [] from by
      rw [← List.length_pos_iff_ne_nil]; omega]
  constructor
  · intro h
    obtain ⟨c, hc⟩ := List.exists_mem_of_ne_nil _ h
    have := List.mem_filter.mp hc
    rw [show c = some q from by
      have h2 := this.2
      rw [beq_iff_eq] at h2
      exact h2] at this
    exact this.1
  · intro h
    exact List.ne_nil_of_mem (List.mem_filter.mpr ⟨h, by rw [beq_iff_eq]⟩)

theorem mem_rowPositions (i : Int) (len : Nat) (p : Pos) :
    p ∈ rowPositions i len ↔ ∃ j : Nat, j < len ∧ p = (i, (j : Int)) := by
  unfold rowPositions
  constructor
  · intro h
    obtain ⟨j, hj, he⟩ := List.mem_map.mp h
    exact ⟨j, List.mem_range.mp hj, he.symm⟩
  · rintro ⟨j, hj, he⟩
    exact List.mem_map.mpr ⟨j, List.mem_range.mpr hj, he.symm⟩

theorem mem_gridPositionsAux (g : Grid) (i0 : Int) (p : Pos) :
    p ∈ gridPositionsAux i0 g ↔ ∃ r c : Nat, r < g.length ∧
      c < (g.getD r []).length ∧ p = (i0 + (r : Int), (c : Int)) := by
  induction g generalizing i0 with
  | nil => simp [gridPositionsAux]
  | cons row rest ih =>
    show p ∈ rowPositions i0 row.length ++ gridPositionsAux (i0 + 1) rest ↔ _
    rw [List.mem_append, mem_rowPositions, ih (i0 + 1)]
    constructor
    · rintro (⟨j, hj, he⟩ | ⟨r, c, hr, hc, he⟩)
      · refine ⟨0, j, by simp, by simpa using hj, ?_⟩
        rw [he]
        simp
      · refine ⟨r + 1, c, by simp only [List.length_cons]; omega,
          by simpa using hc, ?_⟩
        rw [he]
        simp only [Prod.mk.injEq]
        constructor
        · push_cast
          ring
        · trivial
    · rintro ⟨r, c, hr, hc, he⟩
      cases r with
      | zero =>
        left
        refine ⟨c, by simpa using hc, ?_⟩
        rw [he]
        simp
      | succ r' =>
        right
        refine ⟨r', c, by simpa using hr, by simpa using hc, ?_⟩
        rw [he]
        simp only [Prod.mk.injEq]
        constructor
        · push_cast
          ring
        · trivial

theorem mem_gridPositions (g : Grid) (p : Pos) :
    p ∈ gridPositions g ↔ ∃ r c : Nat, r < g.length ∧
      c < (g.getD r []).length ∧ p = ((r : Int), (c : Int)) := by
  unfold gridPositions
  rw [mem_gridPositionsAux]
  constructor
  · rintro ⟨r, c, hr, hc, he⟩
    exact ⟨r, c, hr, hc, by rw [he]; simp⟩
  · rintro ⟨r, c, hr, hc, he⟩
    exact ⟨r, c, hr, hc, by rw [he]; simp⟩

/-!  ## Claim C5: outcome -/

theorem centerPieces_mem_corner (side players : Nat) (h1 : 1 ≤ players)
    (h2 : players ≤ side) :
    (((((side - players) / 2) : Nat) : Int), ((((side - players) / 2) : Nat) : Int))
      ∈ centerPieces side players := by
  have hdl : (side - players) / 2 * 2 ≤ side - players := Nat.div_mul_le_self _ 2
  have hpos : 0 < side - (side - players) / 2 - (side - players) / 2 := by omega
  show _ ∈ ((List.range (side - (side - players) / 2 - (side - players) / 2)).map
    (fun i : Nat => (List.range (side - (side - players) / 2 - (side - players) / 2)).map
      (fun j : Nat => (((((side - players) / 2 + i) : Nat) : Int),
        ((((side - players) / 2 + j) : Nat) : Int))))).flatten
  apply List.mem_flatten.mpr
  refine ⟨_, List.mem_map.mpr ⟨0, List.mem_range.mpr hpos, rfl⟩, ?_⟩
  exact List.mem_map.mpr ⟨0, List.mem_range.mpr hpos, by simp⟩

theorem cell_mem_flatten (g : Grid) (r c : Nat) (hr : r < g.length)
    (hc : c < (g.getD r []).length) :
    cell g ((r : Int), (c : Int)) ∈ g.flatten := by
  rw [cell_nonneg _ _ (Int.natCast_nonneg r) (Int.natCast_nonneg c)]
  simp only [Int.toNat_natCast]
  exact List.mem_flatten.mpr ⟨g.getD r [], getD_mem_of_lt g r [] hr,
    getD_mem_of_lt _ c none hc⟩

theorem validCells_label (players : Nat) (g : Grid)
    (h : validCellsB players g = true) (q : Int) (hq : some q ∈ g.flatten) :
    1 ≤ q ∧ q ≤ (players : Int) := by
  obtain ⟨row, hrow, hcq⟩ := List.mem_flatten.mp hq
  unfold validCellsB at h
  rw [List.all_eq_true] at h
  have h2 := h row hrow
  rw [List.all_eq_true] at h2
  have h3 := h2 (some q) hcq
  simp [cellValueBad] at h3
  omega

theorem done_occupied (s : Reversi) (hs : GridShape s.side s.grid)
    (h1 : 1 ≤ s.players) (h2 : s.players ≤ s.side) (hd : doneB s = true) :
    ∃ q : Int, some q ∈ s.grid.flatten := by
  by_contra hno
  push_neg at hno
  have hallnone : ∀ c ∈ s.grid.flatten, c = none := by
    intro c hc
    cases c with
    | none => rfl
    | some q => exact absurd hc (by intro hmem; exact (hno q) hmem)
  obtain ⟨hgl, hgr⟩ := hs
  have hrowlen : ∀ r : Nat, r < s.grid.length → (s.grid.getD r []).length = s.side :=
    fun r hr => hgr _ (getD_mem_of_lt _ _ _ hr)
  have hcell : ∀ r c : Nat, r < s.side → c < s.side →
      cell s.grid ((r : Int), (c : Int)) = none := by
    intro r c hr hc
    exact hallnone _ (cell_mem_flatten s.grid r c (by omega)
      (by rw [hrowlen r (by omega)]; omega))
  have hdl : (s.side - s.players) / 2 * 2 ≤ s.side - s.players :=
    Nat.div_mul_le_self _ 2
  have hlo : (s.side - s.players) / 2 < s.side := by omega
  have hcorner := centerPieces_mem_corner s.side s.players h1 h2
  have hcellc := hcell ((s.side - s.players) / 2) ((s.side - s.players) / 2) hlo hlo
  have hlegal : legalMoveIB { s with turn := (1 : Int) }
      (((((s.side - s.players) / 2) : Nat) : Int),
        ((((s.side - s.players) / 2) : Nat) : Int)) = true := by
    unfold legalMoveIB
    rw [if_neg (show ¬(cell s.grid _ ≠ none) from fun hne => hne hcellc)]
    dsimp only
    have hnf : ((centerPieces s.side s.players).map
        (fun sq => cell s.grid sq)).contains none = true :=
      List.elem_eq_true_of_mem (List.mem_map.mpr ⟨_, hcorner, hcellc⟩)
    rw [hnf]
    simp only [if_true]
    have hfind : (gridPositions s.grid).find? (fun p =>
        !((centerPieces s.side s.players).contains p) &&
          (cell s.grid p).isSome) = none := by
      rw [List.find?_eq_none]
      intro p hp
      obtain ⟨r, c, hr, hc, he⟩ := (mem_gridPositions s.grid p).mp hp
      have : cell s.grid p = none := by
        rw [he]
        exact hcell r c (by omega) (by rw [← hrowlen r hr]; omega)
      rw [this]
      simp
    rw [hfind]
    simp only [Option.isSome_none, Bool.false_eq_true, if_false]
    have hc1 : (centerPieces s.side s.players).contains
        (((((s.side - s.players) / 2) : Nat) : Int),
          ((((s.side - s.players) / 2) : Nat) : Int)) = true :=
      List.elem_eq_true_of_mem hcorner
    rw [hc1, hcellc]
    simp
  have hmem : (((((s.side - s.players) / 2) : Nat) : Int),
      ((((s.side - s.players) / 2) : Nat) : Int)) ∈
      availableMoves { s with turn := (1 : Int) } := by
    unfold availableMoves
    apply List.mem_filter.mpr
    refine ⟨?_, hlegal⟩
    apply (mem_gridPositions _ _).mpr
    refine ⟨(s.side - s.players) / 2, (s.side - s.players) / 2, ?_, ?_, rfl⟩
    · show (s.side - s.players) / 2 < s.grid.length
      omega
    · show (s.side - s.players) / 2 <
        (s.grid.getD ((s.side - s.players) / 2) []).length
      rw [hrowlen _ (by omega)]
      omega
  have hempty := (done_char s).mp hd 1 le_rfl h1
  rw [show ((1 : Nat) : Int) = (1 : Int) from rfl] at hempty
  rw [hempty] at hmem
  simp at hmem

theorem outcome_done (s : Reversi) (h : doneB s = true) :
    outcome s = (presentLabels s.grid).filter (fun q => countPieces s.grid q ==
      ((presentLabels s.grid).map (fun q => countPieces s.grid q)).foldl max 0) := by
  unfold outcome
  rw [h]
  simp

theorem outcome_char (s : Reversi) (hv : validCellsB s.players s.grid = true)
    (hd : doneB s = true) (q0 : Int) (hq0 : some q0 ∈ s.grid.flatten) :
    outcome s ≠ [] ∧ ∀ q : Int, q ∈ outcome s ↔
      1 ≤ q ∧ q ≤ (s.players : Int) ∧
        countPieces s.grid q = maxPlayerCount s := by
  set M := ((presentLabels s.grid).map (fun q => countPieces s.grid q)).foldl max 0
    with hM
  have hout : outcome s =
      (presentLabels s.grid).filter (fun q => countPieces s.grid q == M) := by
    rw [outcome_done s hd]
  have hkeys0 : q0 ∈ presentLabels s.grid := (mem_presentLabels _ _).mpr hq0
  have hle : ∀ k ∈ presentLabels s.grid, countPieces s.grid k ≤ M := by
    intro k hk
    exact foldl_max_le_of_mem _ 0 _ (List.mem_map.mpr ⟨k, hk, rfl⟩)
  have hMpos : 1 ≤ M := by
    have := (countPieces_pos s.grid q0).mpr hq0
    have h2 := hle q0 hkeys0
    omega
  have hattain : ∃ k ∈ presentLabels s.grid, countPieces s.grid k = M := by
    rcases foldl_max_cases ((presentLabels s.grid).map
      (fun q => countPieces s.grid q)) 0 with hc | hc
    · rw [← hM] at hc
      omega
    · rw [← hM] at hc
      obtain ⟨k, hk, hkM⟩ := List.mem_map.mp hc
      exact ⟨k, hk, hkM⟩
  have hMeq : M = maxPlayerCount s := by
    apply le_antisymm
    · obtain ⟨k, hk, hkM⟩ := hattain
      have hrange := validCells_label s.players s.grid hv k
        ((mem_presentLabels _ _).mp hk)
      have hcnt : countPieces s.grid k ≤ maxPlayerCount s := by
        apply foldl_max_le_of_mem
        apply List.mem_map.mpr
        refine ⟨k.toNat, ?_, by rw [Int.toNat_of_nonneg (by omega)]⟩
        rw [List.mem_range'_1]
        omega
      omega
    · apply foldl_max_le
      · omega
      · intro x hx
        obtain ⟨p, hp, hpx⟩ := List.mem_map.mp hx
        by_cases hz : countPieces s.grid (p : Int) = 0
        · omega
        · have hppos : 1 ≤ countPieces s.grid (p : Int) := by omega
          have hmem : (p : Int) ∈ presentLabels s.grid :=
            (mem_presentLabels _ _).mpr ((countPieces_pos _ _).mp hppos)
          have := hle (p : Int) hmem
          omega
  constructor
  · obtain ⟨k, hk, hkM⟩ := hattain
    apply List.ne_nil_of_mem (a := k)
    rw [hout]
    exact List.mem_filter.mpr ⟨hk, by rw [beq_iff_eq]; exact hkM⟩
  · intro q
    rw [hout]
    constructor
    · intro hq
      obtain ⟨hq1, hq2⟩ := List.mem_filter.mp hq
      rw [beq_iff_eq] at hq2
      have hrange := validCells_label s.players s.grid hv q
        ((mem_presentLabels _ _).mp hq1)
      exact ⟨hrange.1, hrange.2, by rw [← hMeq]; exact hq2⟩
    · rintro ⟨hb1, hb2, hb3⟩
      rw [← hMeq] at hb3
      have hqpos : 1 ≤ countPieces s.grid q := by omega
      have hqmem : q ∈ presentLabels s.grid :=
        (mem_presentLabels _ _).mpr ((countPieces_pos _ _).mp hqpos)
      exact List.mem_filter.mpr ⟨hqmem, by rw [beq_iff_eq]; exact hb3⟩

/-- Claim C5: `outcome` is empty unless `done`; when `done`, it is
non-empty and contains exactly the player numbers whose piece count
equals the maximum piece count over all players. -/
theorem claimC5 (s : Reversi) :
    (doneB s = false → outcome s = []) ∧
    (GridShape s.side s.grid → validCellsB s.players s.grid = true →
      1 ≤ s.players → s.players ≤ s.side → doneB s = true →
      outcome s ≠ [] ∧ ∀ q : Int, q ∈ outcome s ↔
        1 ≤ q ∧ q ≤ (s.players : Int) ∧
          countPieces s.grid q = maxPlayerCount s) := by
  constructor
  · intro h
    unfold outcome
    rw [h]
    simp
  · intro hs hv h1 h2 hd
    obtain ⟨q0, hq0⟩ := done_occupied s hs h1 h2 hd
    exact outcome_char s hv hd q0 hq0

theorem claimC5_witness :
    outcome c5state ≠ [] ∧ ∀ q : Int, q ∈ outcome c5state ↔
      1 ≤ q ∧ q ≤ (c5state.players : Int) ∧
        countPieces c5state.grid q = maxPlayerCount c5state :=
  (claimC5 c5state).2 (by constructor <;> decide) (by decide) (by decide)
    (by decide) (by decide)

/-!  ## Shape congruence, position nodup, occupancy counting -/

theorem getD_oob {α : Type} (l : List α) (i : Nat) (d : α)
    (h : l.length ≤ i) : l.getD i d = d := by
  induction l generalizing i with
  | nil => cases i <;> simp
  | cons x xs ih =>
    cases i with
    | zero => simp at h
    | succ n =>
      simp only [List.getD_cons_succ]
      exact ih n (by simpa using h)

theorem gridPositionsAux_congr (g : Grid) : ∀ (g' : Grid) (i0 : Int),
    g'.length = g.length →
    (∀ i : Nat, (g'.getD i []).length = (g.getD i []).length) →
    gridPositionsAux i0 g' = gridPositionsAux i0 g := by
  induction g with
  | nil =>
    intro g' i0 hlen _
    rw [List.length_nil, List.length_eq_zero] at hlen
    subst hlen
    rfl
  | cons row rest ih =>
    intro g' i0 hlen hrow
    cases g' with
    | nil => simp at hlen
    | cons row' rest' =>
      have h0 := hrow 0
      simp only [List.getD_cons_zero] at h0
      show rowPositions i0 row'.length ++ gridPositionsAux (i0 + 1) rest' =
        rowPositions i0 row.length ++ gridPositionsAux (i0 + 1) rest
      rw [h0]
      congr 1
      exact ih rest' (i0 + 1) (by simpa using hlen)
        (fun i => by have := hrow (i + 1); simpa using this)

theorem gridPositions_congr (g g' : Grid) (hlen : g'.length = g.length)
    (hrow : ∀ i : Nat, (g'.getD i []).length = (g.getD i []).length) :
    gridPositions g' = gridPositions g :=
  gridPositionsAux_congr g g' 0 hlen hrow

theorem mem_gridPositionsAux_fst (g : Grid) : ∀ (i0 : Int) (p : Pos),
    p ∈ gridPositionsAux i0 g → i0 ≤ p.1 := by
  intro i0 p hp
  obtain ⟨r, c, _, _, he⟩ := (mem_gridPositionsAux g i0 p).mp hp
  rw [he]
  simp only
  omega

theorem gridPositionsAux_nodup (g : Grid) : ∀ i0 : Int,
    (gridPositionsAux i0 g).Nodup := by
  induction g with
  | nil =>
    intro i0
    exact List.nodup_nil
  | cons row rest ih =>
    intro i0
    show (rowPositions i0 row.length ++ gridPositionsAux (i0 + 1) rest).Nodup
    rw [List.nodup_append]
    refine ⟨?_, ih (i0 + 1), ?_⟩
    · unfold rowPositions
      refine List.Nodup.map ?_ (List.nodup_range _)
      intro a b hab
      have : ((a : Nat) : Int) = ((b : Nat) : Int) := congrArg Prod.snd hab
      exact_mod_cast this
    · intro p hp hp2
      obtain ⟨j, _, he⟩ := (mem_rowPositions i0 row.length p).mp hp
      have := mem_gridPositionsAux_fst rest (i0 + 1) p hp2
      rw [he] at this
      simp at this

theorem gridPositions_nodup (g : Grid) : (gridPositions g).Nodup :=
  gridPositionsAux_nodup g 0

theorem countP_flip {α : Type} (L : List α) (x : α) (f f' : α → Bool) :
    L.Nodup → x ∈ L → (∀ y ∈ L, y ≠ x → f' y = f y) →
    f x = false → f' x = true → L.countP f' = L.countP f + 1 := by
  induction L with
  | nil =>
    intro _ hx
    simp at hx
  | cons y ys ih =>
    intro hnd hx hsame hfx hfx'
    rw [List.nodup_cons] at hnd
    rcases List.mem_cons.mp hx with h1 | h1
    · subst h1
      have hys : ys.countP f' = ys.countP f := by
        apply List.countP_congr
        intro z hz
        rw [hsame z (List.mem_cons_of_mem _ hz) (fun he => hnd.1 (he ▸ hz))]
      rw [List.countP_cons, List.countP_cons, hfx, hfx', hys]
      simp
    · have hyx : y ≠ x := fun he => hnd.1 (he ▸ h1)
      rw [List.countP_cons, List.countP_cons,
        hsame y (List.mem_cons_self y ys) hyx]
      have := ih hnd.2 h1
        (fun z hz hzx => hsame z (List.mem_cons_of_mem _ hz) hzx) hfx hfx'
      omega

theorem pos_mem_gridPositions (side : Nat) (g : Grid) (p : Pos)
    (hs : GridShape side g) (hb : inBounds side p = true) :
    p ∈ gridPositions g := by
  obtain ⟨h1, h2, h3, h4⟩ := gridShape_cell_lt side g p hs hb
  apply (mem_gridPositions g p).mpr
  refine ⟨p.1.toNat, p.2.toNat, h3, h4, ?_⟩
  rw [Int.toNat_of_nonneg h1, Int.toNat_of_nonneg h2]

theorem gridShape_getD_len (side : Nat) (a b : Grid)
    (ha : GridShape side a) (hb : GridShape side b) :
    a.length = b.length ∧ ∀ i : Nat, (a.getD i []).length = (b.getD i []).length := by
  obtain ⟨ha1, ha2⟩ := ha
  obtain ⟨hb1, hb2⟩ := hb
  refine ⟨by omega, ?_⟩
  intro i
  by_cases hia : i < a.length
  · have hib : i < b.length := by omega
    rw [ha2 _ (getD_mem_of_lt a i [] hia), hb2 _ (getD_mem_of_lt b i [] hib)]
  · rw [getD_oob a i [] (by omega), getD_oob b i [] (by omega)]

theorem occupiedCount_congr (side : Nat) (g g' : Grid)
    (hg : GridShape side g) (hg' : GridShape side g')
    (hcell : ∀ p : Pos, (cell g' p).isSome = (cell g p).isSome) :
    occupiedCount g' = occupiedCount g := by
  unfold occupiedCount
  obtain ⟨hlen, hrow⟩ := gridShape_getD_len side g' g hg' hg
  rw [gridPositions_congr g g' hlen hrow]
  congr 1
  apply List.filter_congr
  intro p _
  exact hcell p

theorem occupiedCount_set2 (side : Nat) (g : Grid) (p : Pos) (v : Int)
    (hs : GridShape side g) (hb : inBounds side p = true)
    (hnone : cell g p = none) :
    occupiedCount (set2 g p v) = occupiedCount g + 1 := by
  obtain ⟨h1, h2, h3, h4⟩ := gridShape_cell_lt side g p hs hb
  have hset : ∀ q : Pos, cell (set2 g p v) q = if q = p then some v else cell g q :=
    fun q => cell_set2 g p q v h1 h2 h3 h4
  unfold occupiedCount
  have hshape' := gridShape_set2 side g p v hs
  obtain ⟨hlen, hrow⟩ := gridShape_getD_len side (set2 g p v) g hshape' hs
  rw [gridPositions_congr g (set2 g p v) hlen hrow]
  rw [← List.countP_eq_length_filter, ← List.countP_eq_length_filter]
  apply countP_flip (gridPositions g) p _ _ (gridPositions_nodup g)
    (pos_mem_gridPositions side g p hs hb)
  · intro y _ hy
    rw [hset y, if_neg hy]
  · rw [hnone]
    rfl
  · rw [hset p, if_pos rfl]
    rfl

/-!  ## The flip walks of `apply_move` -/

theorem flipWalk_succ_eq (player : Int) (d : Pos) (fuel : Nat) (g : Grid)
    (p : Pos) :
    flipWalk player d (fuel + 1) g p =
      (if cell g p = some player then g
       else flipWalk player d fuel (set2 g p player) (p.1 + d.1, p.2 + d.2)) := rfl

theorem flipWalk_rel (side : Nat) (player : Int) (pos d : Pos) (g1 : Grid)
    (n : Nat) (hcap : CapturesFrom g1 side player pos d n) :
    ∀ (fuel : Nat) (j : Nat) (g : Grid), 1 ≤ j → j ≤ n + 1 →
    n + 2 - j ≤ fuel → FlipRel side player g1 g →
    FlipRel side player g1 (flipWalk player d fuel g (rayPos pos d j)) := by
  obtain ⟨hn1, hbe, hce, hmid⟩ := hcap
  intro fuel
  induction fuel with
  | zero =>
    intro j g hj1 hj2 hfuel _
    omega
  | succ m ih =>
    intro j g hj1 hj2 hfuel hrel
    rw [flipWalk_succ_eq]
    by_cases hstop : cell g (rayPos pos d j) = some player
    · rw [if_pos hstop]
      exact hrel
    · rw [if_neg hstop]
      have hjn : j ≤ n := by
        by_contra hgt
        have hj : j = n + 1 := by omega
        subst hj
        rcases hrel.2 (rayPos pos d (n + 1)) with hsame | ⟨hpl, _⟩
        · exact hstop (hsame.trans hce)
        · exact hstop hpl
      obtain ⟨hbk, q, hck, hqk⟩ := hmid j hj1 hjn
      have hbk' : inBounds side (rayPos pos d j) = true := hbk
      obtain ⟨hq1, hq2, hq3, hq4⟩ :=
        gridShape_cell_lt side g (rayPos pos d j) hrel.1 hbk'
      have hset : ∀ r : Pos, cell (set2 g (rayPos pos d j) player) r =
          if r = rayPos pos d j then some player else cell g r :=
        fun r => cell_set2 g (rayPos pos d j) r player hq1 hq2 hq3 hq4
      have hrel' : FlipRel side player g1 (set2 g (rayPos pos d j) player) := by
        refine ⟨gridShape_set2 side g (rayPos pos d j) player hrel.1, ?_⟩
        intro r
        rw [hset r]
        by_cases hr : r = rayPos pos d j
        · rw [if_pos hr, hr]
          right
          rcases hrel.2 (rayPos pos d j) with hsame | ⟨_, q', hq', hq'2⟩
          · exact ⟨rfl, q, hck, hqk⟩
          · exact ⟨rfl, q', hq', hq'2⟩
        · rw [if_neg hr]
          exact hrel.2 r
      have hnext : ((rayPos pos d j).1 + d.1, (rayPos pos d j).2 + d.2) =
          rayPos pos d (j + 1) := (rayPos_succ pos d j).symm
      rw [hnext]
      exact ih (j + 1) (set2 g (rayPos pos d j) player)
        (by omega) (by omega) (by omega) hrel'

theorem capFold_rel (side : Nat) (player : Int) (pos : Pos) (g1 : Grid)
    (hpos : inBounds side pos = true) :
    ∀ ds : List Pos,
    (∀ d ∈ ds, d ∈ directions ∧ (checkDirection g1 side player pos d).isSome = true) →
    ∀ g : Grid, FlipRel side player g1 g →
    FlipRel side player g1 (ds.foldl (fun g d =>
      flipWalk player d side g (pos.1 + d.1, pos.2 + d.2)) g) := by
  intro ds
  induction ds with
  | nil =>
    intro _ g hrel
    exact hrel
  | cons d ds ih =>
    intro hall g hrel
    obtain ⟨hd, hsome⟩ := hall d (List.mem_cons_self d ds)
    obtain ⟨n, hn⟩ := (checkDirection_isSome_iff g1 side player pos d hd hpos).mp hsome
    have hbound : n + 2 ≤ side := ray_bound side pos d n hd hpos hn.2.1
    rw [List.foldl_cons]
    refine ih (fun d' hd' => hall d' (List.mem_cons_of_mem _ hd')) _ ?_
    have h1 : ((pos.1 + d.1, pos.2 + d.2) : Pos) = rayPos pos d 1 :=
      (rayPos_one pos d).symm
    rw [h1]
    exact flipWalk_rel side player pos d g1 n hn side 1 g
      le_rfl (by omega) (by omega) hrel

theorem legal_empty (s : Reversi) (pos : Pos) (hl : legalMoveIB s pos = true) :
    cell s.grid pos = none := by
  by_cases hc : cell s.grid pos = none
  · exact hc
  · unfold legalMoveIB at hl
    rw [if_pos hc] at hl
    exact absurd hl (by simp)

theorem applyPlace_grid (s : Reversi) (pos : Pos) :
    (applyPlace s pos).grid =
      if (!s.othello && (centerPieces s.side s.players).contains pos) = true then
        set2 s.grid pos s.turn
      else
        ((directions.filter (fun d =>
          (checkDirection (set2 s.grid pos s.turn) s.side s.turn pos d).isSome)).foldl
          (fun g d => flipWalk s.turn d s.side g (pos.1 + d.1, pos.2 + d.2))
          (set2 s.grid pos s.turn)) := by
  unfold applyPlace
  by_cases h : (!s.othello && (centerPieces s.side s.players).contains pos) = true
  · rw [if_pos h, if_pos h]
  · rw [if_neg h, if_neg h]

/-- Claim C10: `apply_move` on a legal in-bounds position increases the
number of occupied cells by exactly one — the placed cell goes from
empty to the mover's label, and every other changed cell was occupied
by a different player and becomes the mover's label; no occupied cell
becomes empty. -/
theorem claimC10 (s : Reversi) (pos : Pos)
    (hs : GridShape s.side s.grid)
    (hb : inBounds s.side pos = true)
    (hl : legalMoveIB s pos = true) :
    ∃ s', applyMove s pos = some s' ∧
      occupiedCount s'.grid = occupiedCount s.grid + 1 ∧
      cell s.grid pos = none ∧
      cell s'.grid pos = some s.turn ∧
      ∀ p : Pos, p ≠ pos →
        cell s'.grid p = cell s.grid p ∨
        (cell s'.grid p = some s.turn ∧
          ∃ q, cell s.grid p = some q ∧ q ≠ s.turn) := by
  have hempty := legal_empty s pos hl
  obtain ⟨h1, h2, h3, h4⟩ := gridShape_cell_lt s.side s.grid pos hs hb
  have hset : ∀ r : Pos, cell (set2 s.grid pos s.turn) r =
      if r = pos then some s.turn else cell s.grid r :=
    fun r => cell_set2 s.grid pos r s.turn h1 h2 h3 h4
  have hshape1 : GridShape s.side (set2 s.grid pos s.turn) :=
    gridShape_set2 s.side s.grid pos s.turn hs
  refine ⟨skipLoop (s.players + 2)
    { applyPlace s pos with turn := advanceTurn s.players s.turn }, ?_, ?_⟩
  · unfold applyMove
    rw [hb]
    simp
  · have hgrid : (skipLoop (s.players + 2)
        { applyPlace s pos with turn := advanceTurn s.players s.turn }).grid =
        (applyPlace s pos).grid := by
      obtain ⟨t, ht⟩ := skipLoop_fields (s.players + 2)
        { applyPlace s pos with turn := advanceTurn s.players s.turn }
      rw [ht]
    rw [hgrid, applyPlace_grid]
    by_cases hcen : (!s.othello && (centerPieces s.side s.players).contains pos) = true
    · rw [if_pos hcen]
      refine ⟨occupiedCount_set2 s.side s.grid pos s.turn hs hb hempty,
        hempty, by rw [hset pos, if_pos rfl], ?_⟩
      intro p hp
      left
      rw [hset p, if_neg hp]
    · rw [if_neg hcen]
      have hrelbase : FlipRel s.side s.turn (set2 s.grid pos s.turn)
          (set2 s.grid pos s.turn) := ⟨hshape1, fun p => Or.inl rfl⟩
      have hfilter : ∀ d ∈ directions.filter (fun d =>
          (checkDirection (set2 s.grid pos s.turn) s.side s.turn pos d).isSome),
          d ∈ directions ∧
          (checkDirection (set2 s.grid pos s.turn) s.side s.turn pos d).isSome = true :=
        fun d hd => ⟨(List.mem_filter.mp hd).1, (List.mem_filter.mp hd).2⟩
      have hrel := capFold_rel s.side s.turn pos (set2 s.grid pos s.turn) hb
        _ hfilter _ hrelbase
      refine ⟨?_, hempty, ?_, ?_⟩
      · have hiso : ∀ p : Pos,
            (cell ((directions.filter (fun d =>
              (checkDirection (set2 s.grid pos s.turn) s.side s.turn pos d).isSome)).foldl
              (fun g d => flipWalk s.turn d s.side g (pos.1 + d.1, pos.2 + d.2))
              (set2 s.grid pos s.turn)) p).isSome =
            (cell (set2 s.grid pos s.turn) p).isSome := by
          intro p
          rcases hrel.2 p with hsame | ⟨hpl, q, hq, _⟩
          · rw [hsame]
          · rw [hpl, hq]
            rfl
        rw [occupiedCount_congr s.side (set2 s.grid pos s.turn) _ hshape1 hrel.1 hiso]
        exact occupiedCount_set2 s.side s.grid pos s.turn hs hb hempty
      · rcases hrel.2 pos with hsame | ⟨hpl, _⟩
        · rw [hsame, hset pos, if_pos rfl]
        · exact hpl
      · intro p hp
        rcases hrel.2 p with hsame | ⟨hpl, q, hq, hqne⟩
        · left
          rw [hsame, hset p, if_neg hp]
        · right
          rw [hset p, if_neg hp] at hq
          exact ⟨hpl, q, hq, hqne⟩

theorem claimC10_witness :
    ∃ s', applyMove othello8 (2, 3) = some s' ∧
      occupiedCount s'.grid = occupiedCount othello8.grid + 1 ∧
      cell othello8.grid (2, 3) = none ∧
      cell s'.grid (2, 3) = some othello8.turn ∧
      ∀ p : Pos, p ≠ (2, 3) →
        cell s'.grid p = cell othello8.grid p ∨
        (cell s'.grid p = some othello8.turn ∧
          ∃ q, cell othello8.grid p = some q ∧ q ≠ othello8.turn) :=
  claimC10 othello8 (2, 3) (by constructor <;> decide) (by decide) (by decide)

/-!  ## Claim C8: the invariant and the `load_game` row-length hole -/

/-- Claim C8 is false as stated: `load_game` accepts a grid with the
right row count but empty rows, producing a non-square grid via a
public operation. -/
theorem claimC8_cex :
    reversiInit 3 3 false = some c8state ∧
    (loadGameEff c8state 1 [[], [], []]).1 = none ∧
    gridShapeB c8state.side (loadGameEff c8state 1 [[], [], []]).2.grid = false := by
  decide

theorem gridShape_emptyGrid (side : Nat) : GridShape side (emptyGrid side) := by
  constructor
  · exact List.length_replicate side _
  · intro row hrow
    rw [List.eq_of_mem_replicate hrow]
    exact List.length_replicate side _

theorem validCells_emptyGrid (players side : Nat) :
    validCellsB players (emptyGrid side) = true := by
  unfold validCellsB
  rw [List.all_eq_true]
  intro row hrow
  rw [List.eq_of_mem_replicate hrow, List.all_eq_true]
  intro c hc
  rw [List.eq_of_mem_replicate hc]
  rfl

theorem validCells_set2 (players : Nat) (g : Grid) (p : Pos) (v : Int)
    (h : validCellsB players g = true) (hv1 : 1 ≤ v) (hv2 : v ≤ (players : Int)) :
    validCellsB players (set2 g p v) = true := by
  unfold validCellsB at h ⊢
  rw [List.all_eq_true] at h ⊢
  intro row hrow
  unfold set2 at hrow
  rcases List.mem_or_eq_of_mem_set hrow with hr | hr
  · exact h row hr
  · subst hr
    rw [List.all_eq_true]
    intro c hc
    rcases List.mem_or_eq_of_mem_set hc with hc2 | hc2
    · by_cases hlt : p.1.toNat < g.length
      · have hmem := getD_mem_of_lt g p.1.toNat [] hlt
        have := h _ hmem
        rw [List.all_eq_true] at this
        exact this c hc2
      · rw [getD_oob g p.1.toNat [] (by omega)] at hc2
        simp at hc2
    · subst hc2
      simp [cellValueBad]
      omega

theorem cell_some_mem_flatten (g : Grid) (p : Pos) (v : Int)
    (h : cell g p = some v) : some v ∈ g.flatten := by
  unfold cell at h
  by_cases hnn : 0 ≤ p.1 ∧ 0 ≤ p.2
  · rw [if_pos hnn] at h
    by_cases hr : p.1.toNat < g.length
    · by_cases hcj : p.2.toNat < (g.getD p.1.toNat []).length
      · rw [← h]
        exact List.mem_flatten.mpr ⟨_, getD_mem_of_lt _ _ _ hr,
          getD_mem_of_lt _ _ _ hcj⟩
      · rw [getD_oob _ _ _ (by omega)] at h
        exact absurd h (by simp)
    · rw [getD_oob g _ [] (by omega)] at h
      simp at h
  · rw [if_neg hnn] at h
    simp at h

theorem validCells_of_cells (players : Nat) (g : Grid)
    (h : ∀ p : Pos, ∀ v : Int, cell g p = some v → 1 ≤ v ∧ v ≤ (players : Int)) :
    validCellsB players g = true := by
  unfold validCellsB
  rw [List.all_eq_true]
  intro row hrow
  rw [List.all_eq_true]
  intro c hc
  cases c with
  | none => rfl
  | some v =>
    obtain ⟨i, hi, hgi⟩ := List.mem_iff_getElem.mp hrow
    obtain ⟨j, hj, hrj⟩ := List.mem_iff_getElem.mp hc
    have hcell : cell g ((i : Int), (j : Int)) = some v := by
      rw [cell_nonneg _ _ (Int.natCast_nonneg i) (Int.natCast_nonneg j)]
      simp only [Int.toNat_natCast]
      rw [List.getD_eq_getElem g [] hi, hgi, List.getD_eq_getElem row none hj, hrj]
    have := h _ v hcell
    simp [cellValueBad]
    omega

theorem skipLoop_turn_mem : ∀ (fuel : Nat) (s : Reversi), 1 ≤ s.players →
    1 ≤ s.turn → s.turn ≤ (s.players : Int) →
    1 ≤ (skipLoop fuel s).turn ∧ (skipLoop fuel s).turn ≤ (s.players : Int) := by
  intro fuel
  induction fuel with
  | zero =>
    intro s _ h1 h2
    exact ⟨h1, h2⟩
  | succ n ih =>
    intro s hP h1 h2
    unfold skipLoop
    by_cases hc : ((availableMoves s).isEmpty && !(doneB s)) = true
    · rw [if_pos hc]
      have hadv := advanceTurn_mem s.players s.turn hP
      exact ih (advanceState s) hP hadv.1 hadv.2
    · rw [if_neg hc]
      exact ⟨h1, h2⟩

theorem reversiInit_some (side players : Nat) (oth : Bool) (s : Reversi)
    (h : reversiInit side players oth = some s) :
    s = { side := side, players := players, othello := oth,
          grid := if oth then othelloSeed side (emptyGrid side) else emptyGrid side,
          turn := 1 } ∧ (oth = true → players = 2) := by
  unfold reversiInit at h
  by_cases c1 : players % 2 ≠ (emptyGrid side).length % 2
  · rw [if_pos c1] at h
    exact absurd h (by simp)
  · rw [if_neg c1] at h
    by_cases c2 : oth ∧ players ≠ 2
    · rw [if_pos c2] at h
      exact absurd h (by simp)
    · rw [if_neg c2] at h
      by_cases c3 : (emptyGrid side).length < 3
      · rw [if_pos c3] at h
        exact absurd h (by simp)
      · rw [if_neg c3] at h
        simp only [Option.some.injEq] at h
        refine ⟨h.symm, ?_⟩
        intro ho
        by_contra hp
        exact c2 ⟨(by rw [ho] : oth = true), hp⟩

/-- Claim C8, amended: construction and `apply_move` preserve the full
invariant (square side-by-side grid, cell labels in `[1, players]`,
turn in `[1, players]`), but `load_game` does not validate individual
row lengths — it only guarantees the row count, the cell-label range
and the turn range; a loaded grid may have rows of the wrong length
(see the counterexample). -/
theorem claimC8_amended :
    (∀ (side players : Nat) (oth : Bool) (s : Reversi), 1 ≤ players →
      reversiInit side players oth = some s →
      GridShape s.side s.grid ∧ validCellsB s.players s.grid = true ∧
        1 ≤ s.turn ∧ s.turn ≤ (s.players : Int)) ∧
    (∀ (s : Reversi) (pos : Pos) (s' : Reversi), 1 ≤ s.players →
      GridShape s.side s.grid → validCellsB s.players s.grid = true →
      1 ≤ s.turn → s.turn ≤ (s.players : Int) →
      applyMove s pos = some s' →
      GridShape s'.side s'.grid ∧ validCellsB s'.players s'.grid = true ∧
        1 ≤ s'.turn ∧ s'.turn ≤ (s'.players : Int)) ∧
    (∀ (s : Reversi) (t : Int) (g : Grid) (s' : Reversi),
      loadGameEff s t g = (none, s') →
      s'.grid.length = s.grid.length ∧ validCellsB s'.players s'.grid = true ∧
        1 ≤ s'.turn ∧ s'.turn ≤ (s'.players : Int)) := by
  refine ⟨?_, ?_, ?_⟩
  · intro side players oth s hP h
    obtain ⟨hs, ho2⟩ := reversiInit_some side players oth s h
    subst hs
    cases oth with
    | false =>
      simp only [if_false]
      exact ⟨gridShape_emptyGrid side, validCells_emptyGrid players side,
        le_refl 1, by exact_mod_cast hP⟩
    | true =>
      have hp2 : players = 2 := ho2 rfl
      subst hp2
      simp only [if_true]
      refine ⟨?_, ?_, le_refl 1, by norm_num⟩
      · unfold othelloSeed
        exact gridShape_set2 _ _ _ _ (gridShape_set2 _ _ _ _
          (gridShape_set2 _ _ _ _ (gridShape_set2 _ _ _ _
            (gridShape_emptyGrid side))))
      · unfold othelloSeed
        exact validCells_set2 _ _ _ _ (validCells_set2 _ _ _ _
          (validCells_set2 _ _ _ _ (validCells_set2 _ _ _ _
            (validCells_emptyGrid 2 side) (by norm_num) (by norm_num))
            (by norm_num) (by norm_num)) (by norm_num) (by norm_num))
          (by norm_num) (by norm_num)
  · intro s pos s' hP hs hv ht1 ht2 h
    obtain ⟨hb, hs0⟩ := applyMove_some s pos s' h
    obtain ⟨gP, hgP⟩ := applyPlace_eq s pos
    rw [hgP] at hs0
    have hs' : s' = skipLoop (s.players + 2)
        { s with grid := gP, turn := advanceTurn s.players s.turn } := hs0
    obtain ⟨tF, htF⟩ := skipLoop_fields (s.players + 2)
      { s with grid := gP, turn := advanceTurn s.players s.turn }
    have hfields : s'.side = s.side ∧ s'.players = s.players ∧ s'.grid = gP := by
      rw [hs', htF]
      exact ⟨rfl, rfl, rfl⟩
    have hgPlace : (applyPlace s pos).grid = gP := by rw [hgP]
    -- shape and validity of the placed grid
    have hshape1 : GridShape s.side (set2 s.grid pos s.turn) :=
      gridShape_set2 s.side s.grid pos s.turn hs
    have hv1 : validCellsB s.players (set2 s.grid pos s.turn) = true :=
      validCells_set2 s.players s.grid pos s.turn hv ht1 ht2
    have hgood : GridShape s.side gP ∧ validCellsB s.players gP = true := by
      rw [← hgPlace, applyPlace_grid]
      by_cases hcen :
          (!s.othello && (centerPieces s.side s.players).contains pos) = true
      · rw [if_pos hcen]
        exact ⟨hshape1, hv1⟩
      · rw [if_neg hcen]
        have hrelbase : FlipRel s.side s.turn (set2 s.grid pos s.turn)
            (set2 s.grid pos s.turn) := ⟨hshape1, fun p => Or.inl rfl⟩
        have hrel := capFold_rel s.side s.turn pos (set2 s.grid pos s.turn) hb
          _ (fun d hd => ⟨(List.mem_filter.mp hd).1, (List.mem_filter.mp hd).2⟩)
          _ hrelbase
        refine ⟨hrel.1, ?_⟩
        apply validCells_of_cells s.players
        intro p v hc
        rcases hrel.2 p with hsame | ⟨hpl, q, hq, _⟩
        · rw [hsame] at hc
          exact validCells_label s.players _ hv1 v
            (cell_some_mem_flatten _ p v hc)
        · rw [hpl] at hc
          have hvturn : v = s.turn := by
            injection hc.symm with h2
          rw [hvturn]
          exact ⟨ht1, ht2⟩
    have hadv := advanceTurn_mem s.players s.turn hP
    have hturn := skipLoop_turn_mem (s.players + 2)
      { s with grid := gP, turn := advanceTurn s.players s.turn }
      hP hadv.1 hadv.2
    rw [← hs'] at hturn
    rw [hfields.1, hfields.2.1, hfields.2.2]
    exact ⟨hgood.1, hgood.2, hturn.1, hturn.2⟩
  · intro s t g s' h
    unfold loadGameEff at h
    by_cases c1 : t ≤ 0 ∨ (s.players : Int) < t
    · rw [if_pos c1] at h
      have := congrArg Prod.fst h
      exact absurd this (by simp)
    · rw [if_neg c1] at h
      by_cases c2 : g.length ≠ s.grid.length
      · rw [if_pos c2] at h
        have := congrArg Prod.fst h
        exact absurd this (by simp)
      · rw [if_neg c2] at h
        by_cases c3 : g.any (fun row => row.any (cellValueBad s.players)) = true
        · rw [if_pos c3] at h
          have := congrArg Prod.fst h
          exact absurd this (by simp)
        · rw [if_neg c3] at h
          have hs' : s' = { s with turn := t, grid := g } :=
            (congrArg Prod.snd h).symm
          subst hs'
          refine ⟨?_, ?_, ?_, ?_⟩
          · show g.length = s.grid.length
            omega
          · show validCellsB s.players g = true
            unfold validCellsB
            rw [List.all_eq_true]
            intro row hrow
            rw [List.all_eq_true]
            intro c hc
            rw [Bool.not_eq_true']
            by_contra hbad
            rw [Bool.not_eq_false] at hbad
            apply c3
            rw [List.any_eq_true]
            refine ⟨row, hrow, ?_⟩
            rw [List.any_eq_true]
            exact ⟨c, hc, hbad⟩
          · show (1 : Int) ≤ t
            omega
          · show t ≤ (s.players : Int)
            omega

theorem claimC8_witness :
    GridShape ((applyMove c3state (2, 0)).getD c3state).side
        ((applyMove c3state (2, 0)).getD c3state).grid ∧
      validCellsB ((applyMove c3state (2, 0)).getD c3state).players
        ((applyMove c3state (2, 0)).getD c3state).grid = true ∧
      1 ≤ ((applyMove c3state (2, 0)).getD c3state).turn ∧
      ((applyMove c3state (2, 0)).getD c3state).turn ≤
        (((applyMove c3state (2, 0)).getD c3state).players : Int) :=
  claimC8_amended.2.1 c3state (2, 0) ((applyMove c3state (2, 0)).getD c3state)
    (by decide) (by constructor <;> decide) (by decide) (by decide) (by decide)
    (by decide)
